import Mathlib

set_option linter.unusedVariables false

/-! Verification of the Smith-Waterman local-alignment repository
    (`src/smith_waterman.py` and `src/scoring_scheme.py`).

    Sequences are lists of characters and scores are rationals: the Python
    code computes with IEEE floats, but every claim below concerns the exact
    arithmetic of the scoring rules and of the dynamic-programming recurrence,
    which `ℚ` models faithfully. -/

/-- The exceptions the Python code can raise: `doubleGap` is the
    `ValueError("Encountered alignment between two gaps")` of
    `ScoringScheme.score`, `unknownSymbol` the `AssertionError` for a symbol
    missing from a loaded matrix, `typeError` the `TypeError` of an
    `in`-test against a `None` index, and `keyError` / `valueError` /
    `indexError` the `KeyError` / `float()` `ValueError` / `IndexError`
    that `load_matrix` can raise. -/
inductive SWError where
  | doubleGap
  | unknownSymbol
  | typeError
  | keyError
  | valueError
  | indexError
  deriving DecidableEq, Repr

/-- `scoring_scheme.py`, class `ScoringScheme`: four scoring parameters plus
    the optional substitution matrix.  `index_by_symbol` is the dict mapping a
    symbol (a header token) to its row/column index, `scoring_matrix` the
    square array of entries; both are `None` until `load_matrix` runs. -/
structure ScoringScheme where
  match_score : ℚ := 1
  mismatch_penalty : ℚ := -1
  gap_penalty : ℚ := -1
  gap_start_penalty : ℚ := 0
  index_by_symbol : Option (List (String × Nat)) := none
  scoring_matrix : Option (List (List ℚ)) := none
  deriving DecidableEq, Repr

/-- `ScoringScheme()` with no arguments: the defaults of `__init__`. -/
def defaultScheme : ScoringScheme := {}

/-- The loop body of `ScoringScheme.score` (scoring_scheme.py lines 38-61):
    the zipped columns are consumed left to right, `i` is the enumeration
    index and `acc` the running score.  Column with two gaps raises; a gap
    column adds `gap_penalty` plus `gap_start_penalty` when `i > 0` and the
    previous symbol of the *gapped* sequence is not a gap; otherwise the
    loaded matrix (if any) or match/mismatch decides. -/
def scoreAux (sch : ScoringScheme) (seq1 seq2 : List Char) :
    Nat → ℚ → List (Char × Char) → Except SWError ℚ
  | _, acc, [] => .ok acc
  | i, acc, (c1, c2) :: rest =>
    if c1 = '-' ∧ c2 = '-' then .error .doubleGap
    else if c1 = '-' then
      scoreAux sch seq1 seq2 (i + 1)
        (acc + sch.gap_penalty +
          (if 0 < i ∧ seq1.getD (i - 1) ' ' ≠ '-' then sch.gap_start_penalty else 0)) rest
    else if c2 = '-' then
      scoreAux sch seq1 seq2 (i + 1)
        (acc + sch.gap_penalty +
          (if 0 < i ∧ seq2.getD (i - 1) ' ' ≠ '-' then sch.gap_start_penalty else 0)) rest
    else
      match sch.scoring_matrix with
      | some M =>
        match sch.index_by_symbol with
        | none => .error .typeError
        | some d =>
          match List.lookup (String.mk [c1]) d, List.lookup (String.mk [c2]) d with
          | some row, some col =>
            match M[row]? with
            | some r =>
              match r[col]? with
              | some v => scoreAux sch seq1 seq2 (i + 1) (acc + v) rest
              | none => .error .indexError
            | none => .error .indexError
          | _, _ => .error .unknownSymbol
      | none =>
        scoreAux sch seq1 seq2 (i + 1)
          (acc + if c1 = c2 then sch.match_score else sch.mismatch_penalty) rest

/-- `ScoringScheme.score` applied to two whole alignments: iterate over
    `zip(sequence1, sequence2)` (silently truncating to the shorter one)
    starting from score `0.0`. -/
def ScoringScheme.score (sch : ScoringScheme) (seq1 seq2 : List Char) :
    Except SWError ℚ :=
  scoreAux sch seq1 seq2 0 0 (seq1.zip seq2)

/-- `smith_waterman` calls the scheme on two single symbols
    (`scoring_scheme(sequence1[i-1], sequence2[j-1])`), i.e. `score` on two
    one-column alignments; the enumeration index is then 0, so
    `gap_start_penalty` is never consulted on this path. -/
def scorePair (sch : ScoringScheme) (c1 c2 : Char) : Except SWError ℚ :=
  sch.score [c1] [c2]

/-- The (total) value of `scorePair`, defaulting the error cases to 0; used
    to state properties of the DP matrix once the absence of errors has been
    established. -/
def scorePairD (sch : ScoringScheme) (c1 c2 : Char) : ℚ :=
  match scorePair sch c1 c2 with
  | .ok v => v
  | .error _ => 0

/-- smith_waterman.py lines 20-34, the dynamic-programming matrix: row 0 and
    column 0 are 0 and
    `A[i, j] = max(A[i-1, j-1] + score(seq1[i-1], seq2[j-1]), A[i-1, j] + gap_penalty, A[i, j-1] + gap_penalty, 0.0)`.
    `prev` is row `i - 1`, `fi j` the pairwise score of `seq1[i-1]` and
    `seq2[j]`, `g` the gap penalty; the recursion is by rows exactly as the
    row-major fill of the Python table. -/
def dpRow (prev fi : Nat → ℚ) (g : ℚ) : Nat → ℚ
  | 0 => 0
  | j + 1 => max (max (prev j + fi j) (prev (j + 1) + g)) (max (dpRow prev fi g j + g) 0)

/-- The full DP matrix: `dpA f g i j` is `A[i, j]`, where `f a b` is the
    pairwise score of `seq1[a]` and `seq2[b]` (0-based). -/
def dpA (f : Nat → Nat → ℚ) (g : ℚ) : Nat → Nat → ℚ
  | 0 => fun _ => 0
  | i + 1 => dpRow (dpA f g i) (f i) g

/-- The interior cells `(i, j)`, `1 ≤ i ≤ n`, `1 ≤ j ≤ m`, in the row-major
    order of the two nested `for` loops of smith_waterman.py. -/
def cells (n m : Nat) : List (Nat × Nat) :=
  (List.range n).flatMap fun i => (List.range m).map fun j => (i + 1, j + 1)

/-- smith_waterman.py lines 35-38, one step of the running
    `(best_score, best_locations)` update: a cell whose value ties the current
    best is appended, a cell that beats it resets the pair. -/
def bestStep (A : Nat → Nat → ℚ) (st : ℚ × List (Nat × Nat)) (ij : Nat × Nat) :
    ℚ × List (Nat × Nat) :=
  let v := A ij.1 ij.2
  let st1 := if v = st.1 then (st.1, st.2 ++ [ij]) else st
  if st1.1 < v then (v, [ij]) else st1

/-- The first exception raised by a `scoring_scheme(...)` call during the
    row-major fill, if any: the Python loop aborts at that cell. -/
def firstFillError (sch : ScoringScheme) (s1 s2 : List Char) : Option SWError :=
  (cells s1.length s2.length).findSome? fun ij =>
    match scorePair sch (s1.getD (ij.1 - 1) ' ') (s2.getD (ij.2 - 1) ' ') with
    | .ok _ => none
    | .error e => some e

/-- smith_waterman.py lines 48-54: expanding one backtrace record
    `(alignment1, alignment2, i, j)` into every recurrence term that
    reproduces `A[i, j]` (diagonal, up, left, in this order), prepending the
    consumed symbols or a gap. -/
def expandStep (A f : Nat → Nat → ℚ) (g : ℚ) (s1 s2 : List Char)
    (p : List Char × List Char × Nat × Nat) :
    List (List Char × List Char × Nat × Nat) :=
  match p with
  | (a1, a2, i, j) =>
    (if A i j = A (i - 1) (j - 1) + f (i - 1) (j - 1) then
      [(s1.getD (i - 1) ' ' :: a1, s2.getD (j - 1) ' ' :: a2, i - 1, j - 1)]
    else [])
    ++ (if A i j = A (i - 1) j + g then
      [(s1.getD (i - 1) ' ' :: a1, '-' :: a2, i - 1, j)]
    else [])
    ++ (if A i j = A i (j - 1) + g then
      [('-' :: a1, s2.getD (j - 1) ' ' :: a2, i, j - 1)]
    else [])

/-- smith_waterman.py lines 41-55, the level-by-level `while` loop: records
    sitting on a 0 cell are flushed into the result, the others are expanded
    into the next level.  The loop terminates because `i + j` strictly drops
    along every branch, so `fuel` levels with `fuel > max (i + j)` replay it
    exactly; `smith_waterman` passes `n + m + 2`. -/
def backtraceAux (A f : Nat → Nat → ℚ) (g : ℚ) (s1 s2 : List Char) :
    Nat → List (List Char × List Char × Nat × Nat) → List (List Char × List Char)
  | 0, _ => []
  | fuel + 1, ps =>
    ps.filterMap (fun p => if A p.2.2.1 p.2.2.2 = 0 then some (p.1, p.2.1) else none)
      ++ backtraceAux A f g s1 s2 fuel
          (ps.flatMap fun p =>
            if A p.2.2.1 p.2.2.2 = 0 then [] else expandStep A f g s1 s2 p)

/-- smith_waterman.py lines 7-57: fill the DP matrix while tracking the best
    score and its locations, then backtrace every location.  A scoring
    exception raised at some cell aborts the whole computation (the value of
    the partially built table is unobservable, so only the first error in
    fill order matters); on the error-free path every `scoring_scheme(...)`
    call, including the ones re-issued by the backtrace, returns its `ok`
    value, which is `scorePairD`. -/
def smith_waterman (sch : ScoringScheme) (s1 s2 : List Char) :
    Except SWError (ℚ × List (List Char × List Char)) :=
  match firstFillError sch s1 s2 with
  | some e => .error e
  | none =>
    let n := s1.length
    let m := s2.length
    let f : Nat → Nat → ℚ := fun i j => scorePairD sch (s1.getD i ' ') (s2.getD j ' ')
    let A := dpA f sch.gap_penalty
    let best := (cells n m).foldl (bestStep A) (0, [])
    let seeds := best.2.map fun ij => (([] : List Char), ([] : List Char), ij.1, ij.2)
    .ok (best.1, backtraceAux A f sch.gap_penalty s1 s2 (n + m + 2) seeds)

/-- Removing the gap symbol from an alignment row. -/
def stripGaps (s : List Char) : List Char :=
  s.filter (fun c => c ≠ '-')

/-- `u` is a contiguous substring of `s`. -/
def substringOf (u s : List Char) : Prop :=
  ∃ a b, s = a ++ u ++ b

/-- Executable check for `substringOf`. -/
def substringOfB (u s : List Char) : Bool :=
  (List.range (s.length + 1)).any fun k => (s.drop k).take u.length == u

/-- Python `str.split()` with no argument, on the character list of a string:
    splits on runs of whitespace, never yields empty tokens; `acc` holds the
    current token reversed. -/
def splitWsAux : List Char → List Char → List (List Char)
  | [], acc => if acc.isEmpty then [] else [acc.reverse]
  | c :: rest, acc =>
    if c.isWhitespace then
      if acc.isEmpty then splitWsAux rest [] else acc.reverse :: splitWsAux rest []
    else splitWsAux rest (c :: acc)

/-- `line.split()` as used by `load_matrix` on header and data lines. -/
def pySplit (s : String) : List String :=
  (splitWsAux s.data []).map String.mk

/-- Assignment into a Python dict: a later binding for the same key replaces
    the earlier one. -/
def dictInsert (d : List (String × Nat)) (k : String) (v : Nat) : List (String × Nat) :=
  match d with
  | [] => [(k, v)]
  | (k2, v2) :: rest => if k2 = k then (k, v) :: rest else (k2, v2) :: dictInsert rest k v

/-- scoring_scheme.py line 86:
    `{symbol.strip(): i for i, symbol in enumerate(headline.split())}`
    (`strip()` is the identity on `split()` tokens, which contain no
    whitespace). -/
def buildIndex (tokens : List String) : List (String × Nat) :=
  tokens.enum.foldl (fun d p => dictInsert d p.2 p.1) []

/-- The value of a decimal digit string. -/
def digitsToNat (ds : List Char) : Nat :=
  ds.foldl (fun a c => a * 10 + (c.toNat - Char.toNat (Char.ofNat 48))) 0

/-- The Python builtin `float()` on a score token, modelled on the decimal
    grammar `[+-]? digits [. digits]` (also `.digits` / `digits.`); other
    inputs — in particular any alphabetic token — yield `none`, the
    `ValueError` of `float()`.  (Exponents, `inf` and `nan` are accepted by
    Python but never appear in a scoring-matrix file and are not modelled.) -/
def pythonFloat? (s : String) : Option ℚ :=
  let signed : ℚ × List Char :=
    match s.data with
    | '-' :: rest => (-1, rest)
    | '+' :: rest => (1, rest)
    | _ => (1, s.data)
  let ip := signed.2.takeWhile Char.isDigit
  match signed.2.dropWhile Char.isDigit with
  | [] => if ip.isEmpty then none else some (signed.1 * (digitsToNat ip : ℚ))
  | '.' :: frac =>
    if frac.all Char.isDigit ∧ ¬(ip.isEmpty ∧ frac.isEmpty) then
      some (signed.1 * ((digitsToNat ip : ℚ) + (digitsToNat frac : ℚ) / (10 : ℚ) ^ frac.length))
    else none
  | _ => none

/-- `self.scoring_matrix[i][j] = v`: numpy raises `IndexError` when either
    index is out of bounds, otherwise updates in place. -/
def setEntry (M : List (List ℚ)) (i j : Nat) (v : ℚ) : Option (List (List ℚ)) :=
  match M[i]? with
  | none => none
  | some row => if j < row.length then some (M.set i (row.set j v)) else none

/-- scoring_scheme.py lines 94-95: `for j, val in enumerate(row):
    self.scoring_matrix[i][j] = float(val)` — `float` first (ValueError),
    then the indexed store (IndexError).  On an exception the writes already
    performed remain in the matrix. -/
def fillVals (M : List (List ℚ)) (i : Nat) : Nat → List String → List (List ℚ) × Option SWError
  | _, [] => (M, none)
  | j, v :: rest =>
    match pythonFloat? v with
    | none => (M, some .valueError)
    | some q =>
      match setEntry M i j q with
      | none => (M, some .indexError)
      | some M2 => fillVals M2 i (j + 1) rest

/-- scoring_scheme.py lines 91-95, one data line: `row = line.split()`,
    `symbol = row.pop(0)` (IndexError on a blank line),
    `i = self.index_by_symbol[symbol]` (KeyError on an unknown symbol), then
    the value writes. -/
def fillRow (d : List (String × Nat)) (M : List (List ℚ)) (line : String) :
    List (List ℚ) × Option SWError :=
  match pySplit line with
  | [] => (M, some .indexError)
  | sym :: vals =>
    match List.lookup sym d with
    | none => (M, some .keyError)
    | some i => fillVals M i 0 vals

/-- The `for line in f` loop of `load_matrix`: data lines processed in order,
    the first exception aborts the loop with the matrix as mutated so far. -/
def fillRows (d : List (String × Nat)) (M : List (List ℚ)) :
    List String → List (List ℚ) × Option SWError
  | [] => (M, none)
  | line :: rest =>
    match fillRow d M line with
    | (M2, none) => fillRows d M2 rest
    | (M2, some e) => (M2, some e)

/-- scoring_scheme.py lines 83-85: skip leading `#` comment lines;
    `readline()` returns `""` at end of file, and `headline[0]` then raises
    `IndexError` (so does an explicitly empty line). -/
def skipComments : List String → Except SWError (String × List String)
  | [] => .error .indexError
  | l :: rest =>
    match l.data with
    | [] => .error .indexError
    | c :: _ => if c = '#' then skipComments rest else .ok (l, rest)

/-- `ScoringScheme.load_matrix` (scoring_scheme.py lines 74-95) on the list of
    lines of the file.  The header dict and the zero matrix are assigned to
    the scheme *before* the row loop runs, exactly as the Python method
    mutates `self`; the second component is the exception the method raises,
    if any, and the first component is the state of the scheme when the call
    returns or raises. -/
def ScoringScheme.load_matrix (sch : ScoringScheme) (lines : List String) :
    ScoringScheme × Option SWError :=
  match skipComments lines with
  | .error e => (sch, some e)
  | .ok (headline, rest) =>
    let d := buildIndex (pySplit headline)
    let n := d.length
    let M0 := List.replicate n (List.replicate n (0 : ℚ))
    match fillRows d M0 rest with
    | (M, e) => ({ sch with index_by_symbol := some d, scoring_matrix := some M }, e)

/-- The scheme of the C8 counterexample: a (legal, if unusual) positive gap
    penalty lets optimal paths run through the `-` character that sequence 1
    itself contains. -/
def sch8 : ScoringScheme :=
  { match_score := 2, mismatch_penalty := -10, gap_penalty := 1 }

/-- A default scheme with a nonzero gap-start penalty, to observe where
    `gap_start_penalty` is charged. -/
def sch3 : ScoringScheme := { gap_start_penalty := 5 }

/-- A scheme with a small loaded matrix over the alphabet `A`, `B`, used to
    exercise the matrix branch of the scorer on concrete inputs. -/
def msch : ScoringScheme :=
  { defaultScheme with
    index_by_symbol := some [("A", 0), ("B", 1)]
    scoring_matrix := some [[7, 8], [0, 0]] }

/-- The per-column contribution of the whole-alignment scorer as the code
    computes it (for matrix-free schemes and columns that are not double
    gaps): a gap column is charged `gap_penalty`, plus `gap_start_penalty`
    when `i > 0` and the previous symbol of the SAME sequence (the gapped
    one) is not a gap; a non-gap column is charged match/mismatch. -/
def contribC3 (sch : ScoringScheme) (a1 a2 : List Char) (i : Nat) : ℚ :=
  let c1 := a1.getD i ' '
  let c2 := a2.getD i ' '
  if c1 = '-' then
    sch.gap_penalty + (if 0 < i ∧ a1.getD (i - 1) ' ' ≠ '-' then sch.gap_start_penalty else 0)
  else if c2 = '-' then
    sch.gap_penalty + (if 0 < i ∧ a2.getD (i - 1) ' ' ≠ '-' then sch.gap_start_penalty else 0)
  else if c1 = c2 then sch.match_score else sch.mismatch_penalty

/-- The per-column contribution as claim C3 words it: `gap_start_penalty` is
    added exactly when the previous column of the OTHER sequence (the one
    that does not hold this column's gap) was not already a gap.  Written
    from the claim, to be compared with the code's `ScoringScheme.score`. -/
def contribClaimC3 (sch : ScoringScheme) (a1 a2 : List Char) (i : Nat) : ℚ :=
  let c1 := a1.getD i ' '
  let c2 := a2.getD i ' '
  if c1 = '-' then
    sch.gap_penalty + (if 0 < i ∧ a2.getD (i - 1) ' ' ≠ '-' then sch.gap_start_penalty else 0)
  else if c2 = '-' then
    sch.gap_penalty + (if 0 < i ∧ a1.getD (i - 1) ' ' ≠ '-' then sch.gap_start_penalty else 0)
  else if c1 = c2 then sch.match_score else sch.mismatch_penalty

/-- Closed-form case analysis of `scorePair`, read off from the five branches
    of `ScoringScheme.score` at enumeration index 0. -/
theorem scorePair_eq (sch : ScoringScheme) (c1 c2 : Char) :
    scorePair sch c1 c2 =
      if c1 = '-' ∧ c2 = '-' then .error .doubleGap
      else if c1 = '-' then .ok sch.gap_penalty
      else if c2 = '-' then .ok sch.gap_penalty
      else
        match sch.scoring_matrix with
        | some M =>
          match sch.index_by_symbol with
          | none => .error .typeError
          | some d =>
            match List.lookup (String.mk [c1]) d, List.lookup (String.mk [c2]) d with
            | some row, some col =>
              match M[row]? with
              | some r =>
                match r[col]? with
                | some v => .ok v
                | none => .error .indexError
              | none => .error .indexError
            | _, _ => .error .unknownSymbol
        | none => .ok (if c1 = c2 then sch.match_score else sch.mismatch_penalty) := by
  show scoreAux sch [c1] [c2] 0 0 [(c1, c2)] = _
  by_cases h1 : c1 = '-' <;> by_cases h2 : c2 = '-'
  · simp [scoreAux, h1, h2]
  · simp [scoreAux, h1, h2]
  · simp [scoreAux, h1, h2]
  · simp only [scoreAux, h1, h2, and_self, and_false, false_and, if_false, ite_false,
      if_neg, reduceIte]
    rcases hm : sch.scoring_matrix with _ | M
    · simp [scoreAux, zero_add]
    · rcases hd : sch.index_by_symbol with _ | d
      · rfl
      · rcases hl1 : List.lookup (String.mk [c1]) d with _ | row <;>
          rcases hl2 : List.lookup (String.mk [c2]) d with _ | col
        · simp [hl1, hl2]
        · simp [hl1, hl2]
        · simp [hl1, hl2]
        · simp only [hl1, hl2]
          rcases hr : M[row]? with _ | r
          · simp [hr]
          · simp only [hr]
            rcases hv : r[col]? with _ | v
            · simp [hv]
            · simp [hv, scoreAux, zero_add]


/-- Row 0 and column 0 of the DP matrix are 0. -/
theorem dpA_zero_row (f : Nat → Nat → ℚ) (g : ℚ) (j : Nat) : dpA f g 0 j = 0 := rfl

theorem dpA_zero_col (f : Nat → Nat → ℚ) (g : ℚ) (i : Nat) : dpA f g i 0 = 0 := by
  cases i <;> rfl

/-- The interior recurrence, exactly the four-way `max` of the Python fill. -/
theorem dpA_succ (f : Nat → Nat → ℚ) (g : ℚ) (i j : Nat) :
    dpA f g (i + 1) (j + 1) =
      max (max (dpA f g i j + f i j) (dpA f g i (j + 1) + g))
        (max (dpA f g (i + 1) j + g) 0) := rfl

/-- A cell whose value is not 0 is an interior cell. -/
theorem dpA_ne_zero_pos (f : Nat → Nat → ℚ) (g : ℚ) (i j : Nat)
    (h : dpA f g i j ≠ 0) : 0 < i ∧ 0 < j := by
  constructor
  · rcases i with _ | i
    · exact absurd (dpA_zero_row f g j) h
    · exact Nat.succ_pos i
  · rcases j with _ | j
    · exact absurd (dpA_zero_col f g (i : Nat)) h
    · exact Nat.succ_pos j

/-- Every cell of the DP matrix is nonnegative (the 0 floor). -/
theorem dpA_nonneg (f : Nat → Nat → ℚ) (g : ℚ) (i j : Nat) : 0 ≤ dpA f g i j := by
  rcases i with _ | i
  · exact le_refl 0
  · rcases j with _ | j
    · rw [dpA_zero_col]
    · rw [dpA_succ]
      exact le_trans (le_max_right _ 0) (le_max_right _ _)

/-- Monotonicity of the DP matrix in the score function and the gap penalty,
    on the cells the recurrence actually consults. -/
theorem dpA_mono (f1 f2 : Nat → Nat → ℚ) (g1 g2 : ℚ)
    (hf : ∀ a b, f1 a b ≤ f2 a b) (hg : g1 ≤ g2) :
    ∀ i j, dpA f1 g1 i j ≤ dpA f2 g2 i j := by
  intro i
  induction i with
  | zero => intro j; exact le_refl 0
  | succ i ih =>
    intro j
    induction j with
    | zero => rw [dpA_zero_col, dpA_zero_col]
    | succ j ihj =>
      rw [dpA_succ, dpA_succ]
      apply max_le_max
      · exact max_le_max (add_le_add (ih j) (hf i j)) (add_le_add (ih (j + 1)) hg)
      · exact max_le_max (add_le_add ihj hg) (le_refl 0)

/-- When every consulted pairwise score and the gap penalty are nonpositive,
    every cell of the DP matrix is 0. -/
theorem dpA_eq_zero (f : Nat → Nat → ℚ) (g : ℚ) :
    ∀ i j, (∀ a < i, ∀ b < j, f a b ≤ 0) → g ≤ 0 → dpA f g i j = 0 := by
  intro i
  induction i with
  | zero => intro j _ _; rfl
  | succ i ih =>
    intro j
    induction j with
    | zero => intro _ _; rw [dpA_zero_col]
    | succ j ihj =>
      intro hf hg
      have h0 : dpA f g i j = 0 := by
        refine ih j (fun a ha b hb => hf a (Nat.lt_succ_of_lt ha) b (Nat.lt_succ_of_lt hb)) hg
      have h1 : dpA f g i (j + 1) = 0 := by
        refine ih (j + 1) (fun a ha b hb => hf a (Nat.lt_succ_of_lt ha) b hb) hg
      have h2 : dpA f g (i + 1) j = 0 := by
        refine ihj (fun a ha b hb => hf a ha b (Nat.lt_succ_of_lt hb)) hg
      have h3 : f i j ≤ 0 := hf i (Nat.lt_succ_self i) j (Nat.lt_succ_self j)
      rw [dpA_succ, h0, h1, h2]
      apply le_antisymm
      · apply max_le
        · apply max_le <;> linarith
        · apply max_le <;> linarith
      · exact le_trans (le_max_right _ 0) (le_max_right _ _)

/-- The first component of one `bestStep` is `max` of the state and the cell. -/
theorem bestStep_fst (A : Nat → Nat → ℚ) (st : ℚ × List (Nat × Nat)) (ij : Nat × Nat) :
    (bestStep A st ij).1 = max st.1 (A ij.1 ij.2) := by
  unfold bestStep
  rcases lt_trichotomy st.1 (A ij.1 ij.2) with h | h | h
  · have hne : ¬ A ij.1 ij.2 = st.1 := fun he => absurd he.symm (ne_of_lt h)
    simp [hne, h, max_eq_right (le_of_lt h)]
  · simp [h, lt_irrefl]
  · have hne : ¬ A ij.1 ij.2 = st.1 := ne_of_lt h
    have : ¬ st.1 < A ij.1 ij.2 := not_lt_of_gt h
    simp [hne, this, max_eq_left (le_of_lt h)]

/-- The best score the fold computes is the running `max` over the cells. -/
theorem bestFold_fst (A : Nat → Nat → ℚ) :
    ∀ (cs : List (Nat × Nat)) (st : ℚ × List (Nat × Nat)),
      (cs.foldl (bestStep A) st).1 = cs.foldl (fun b ij => max b (A ij.1 ij.2)) st.1 := by
  intro cs
  induction cs with
  | nil => intro st; rfl
  | cons c cs ih =>
    intro st
    rw [List.foldl_cons, List.foldl_cons, ih, bestStep_fst]

/-- Folding `max` preserves pointwise bounds. -/
theorem foldlMax_mono (A1 A2 : Nat → Nat → ℚ) (cs : List (Nat × Nat))
    (h : ∀ ij ∈ cs, A1 ij.1 ij.2 ≤ A2 ij.1 ij.2) :
    ∀ b1 b2 : ℚ, b1 ≤ b2 →
      cs.foldl (fun b ij => max b (A1 ij.1 ij.2)) b1 ≤
        cs.foldl (fun b ij => max b (A2 ij.1 ij.2)) b2 := by
  induction cs with
  | nil => intro b1 b2 hb; exact hb
  | cons c cs ih =>
    intro b1 b2 hb
    rw [List.foldl_cons, List.foldl_cons]
    refine ih (fun ij hij => h ij (List.mem_cons_of_mem c hij)) _ _ ?_
    exact max_le_max hb (h c (List.mem_cons_self c cs))

/-- The initial accumulator bounds the `max` fold from below. -/
theorem le_foldlMax (A : Nat → Nat → ℚ) (cs : List (Nat × Nat)) :
    ∀ b : ℚ, b ≤ cs.foldl (fun b ij => max b (A ij.1 ij.2)) b := by
  induction cs with
  | nil => intro b; exact le_refl b
  | cons c cs ih =>
    intro b
    rw [List.foldl_cons]
    exact le_trans (le_max_left _ _) (ih _)

/-- Every listed cell bounds the `max` fold from below. -/
theorem mem_le_foldlMax (A : Nat → Nat → ℚ) (cs : List (Nat × Nat)) (x : Nat × Nat)
    (hx : x ∈ cs) : ∀ b : ℚ, A x.1 x.2 ≤ cs.foldl (fun b ij => max b (A ij.1 ij.2)) b := by
  induction cs with
  | nil => cases hx
  | cons c cs ih =>
    intro b
    rw [List.foldl_cons]
    rcases List.mem_cons.mp hx with h | h
    · subst h; exact le_trans (le_max_right _ _) (le_foldlMax A cs _)
    · exact ih h _

/-- One `bestStep` can only add the cell it just visited. -/
theorem bestStep_snd_subset (A : Nat → Nat → ℚ) (st : ℚ × List (Nat × Nat))
    (ij x : Nat × Nat) (h : x ∈ (bestStep A st ij).2) : x ∈ st.2 ∨ x = ij := by
  simp only [bestStep] at h
  by_cases he : A ij.1 ij.2 = st.1
  · simp [he] at h
    exact h
  · by_cases hl : st.1 < A ij.1 ij.2
    · simp [he, hl] at h
      exact Or.inr h
    · simp [he, hl] at h
      exact Or.inl h

/-- Locations produced by the best-score fold come from its input cells (or
    the initial state). -/
theorem bestFold_locs_subset (A : Nat → Nat → ℚ) :
    ∀ (cs : List (Nat × Nat)) (st : ℚ × List (Nat × Nat)) (x : Nat × Nat),
      x ∈ (cs.foldl (bestStep A) st).2 → x ∈ st.2 ∨ x ∈ cs := by
  intro cs
  induction cs with
  | nil => intro st x hx; exact Or.inl hx
  | cons c cs ih =>
    intro st x hx
    rw [List.foldl_cons] at hx
    rcases ih _ x hx with h | h
    · rcases bestStep_snd_subset A st c x h with h2 | h2
      · exact Or.inl h2
      · exact Or.inr (by simp [h2])
    · exact Or.inr (List.mem_cons_of_mem c h)

/-- Membership in the interior cell list. -/
theorem mem_cells (n m : Nat) (p : Nat × Nat) :
    p ∈ cells n m ↔ 1 ≤ p.1 ∧ p.1 ≤ n ∧ 1 ≤ p.2 ∧ p.2 ≤ m := by
  rcases p with ⟨i, j⟩
  simp only [cells, List.mem_flatMap, List.mem_map, List.mem_range]
  constructor
  · rintro ⟨a, ha, b, hb, hab⟩
    cases hab
    omega
  · rintro ⟨h1, h2, h3, h4⟩
    exact ⟨i - 1, by omega, j - 1, by omega, by simp [Nat.sub_add_cancel h1, Nat.sub_add_cancel h3]⟩

/-- The number of interior cells. -/
theorem cells_length (n m : Nat) : (cells n m).length = n * m := by
  induction n with
  | zero => simp [cells]
  | succ n ih =>
    simp only [cells, List.range_succ, List.flatMap_append, List.length_append] at ih ⊢
    simp [ih, Nat.succ_mul]

/-- The backtrace of no records yields no alignments. -/
theorem backtraceAux_nil (A f : Nat → Nat → ℚ) (g : ℚ) (s1 s2 : List Char) :
    ∀ fuel, backtraceAux A f g s1 s2 fuel [] = [] := by
  intro fuel
  induction fuel with
  | zero => rfl
  | succ fuel ih => simp [backtraceAux, ih]

/-- Unfolding one backtrace level. -/
theorem backtraceAux_succ (A f : Nat → Nat → ℚ) (g : ℚ) (s1 s2 : List Char)
    (fuel : Nat) (ps : List (List Char × List Char × Nat × Nat)) :
    backtraceAux A f g s1 s2 (fuel + 1) ps =
      ps.filterMap (fun p => if A p.2.2.1 p.2.2.2 = 0 then some (p.1, p.2.1) else none)
        ++ backtraceAux A f g s1 s2 fuel
            (ps.flatMap fun p =>
              if A p.2.2.1 p.2.2.2 = 0 then [] else expandStep A f g s1 s2 p) := rfl

/-- Dropping `k` elements and then uncons-ing, for `k` in range. -/
theorem drop_getD_cons (l : List Char) (k : Nat) (hk : k < l.length) (d : Char) :
    l.drop k = l.getD k d :: l.drop (k + 1) := by
  induction l generalizing k with
  | nil => cases hk
  | cons c cs ih =>
    rcases k with _ | k
    · rfl
    · have : k < cs.length := by simpa using hk
      simpa [List.getD] using ih k this

/-- `scorePair` never consults `gap_start_penalty` (the one-column alignment
    has enumeration index 0). -/
theorem scorePair_gsp (sch : ScoringScheme) (g : ℚ) (c1 c2 : Char) :
    scorePair { sch with gap_start_penalty := g } c1 c2 = scorePair sch c1 c2 := by
  rw [scorePair_eq, scorePair_eq]

/-- With no matrix loaded, a `scorePair` call errors exactly on two gaps, and
    the error is the double-gap `ValueError`. -/
theorem scorePair_noMatrix (sch : ScoringScheme) (hm : sch.scoring_matrix = none)
    (c1 c2 : Char) :
    scorePair sch c1 c2 =
      if c1 = '-' ∧ c2 = '-' then .error .doubleGap
      else if c1 = '-' then .ok sch.gap_penalty
      else if c2 = '-' then .ok sch.gap_penalty
      else .ok (if c1 = c2 then sch.match_score else sch.mismatch_penalty) := by
  rw [scorePair_eq, hm]

/-- `scorePairD` is monotone in the gap penalty (all other parameters
    fixed): on the error cases both sides are the default 0, on a gap column
    it is the gap penalty itself, everywhere else it does not depend on it. -/
theorem scorePairD_gap_mono (sch : ScoringScheme) (g1 g2 : ℚ) (hg : g1 ≤ g2) (c1 c2 : Char) :
    scorePairD { sch with gap_penalty := g1 } c1 c2 ≤
      scorePairD { sch with gap_penalty := g2 } c1 c2 := by
  unfold scorePairD
  rw [scorePair_eq, scorePair_eq]
  by_cases h1 : c1 = '-' <;> by_cases h2 : c2 = '-' <;>
    simp only [h1, h2, and_self, and_false, false_and, if_true, if_false, ite_true, ite_false]
  · exact le_refl 0
  · exact hg
  · exact hg
  · rcases hm : sch.scoring_matrix with _ | M <;>
      simp only [hm]
    · exact le_refl _
    · rcases hd : sch.index_by_symbol with _ | d <;> simp only [hd]
      · exact le_refl 0
      · rcases hl1 : List.lookup (String.mk [c1]) d with _ | row <;>
          rcases hl2 : List.lookup (String.mk [c2]) d with _ | col <;>
          simp only [hl1, hl2]
        · exact le_refl 0
        · exact le_refl 0
        · exact le_refl 0
        · rcases hr : M[row]? with _ | r <;> simp only [hr]
          · exact le_refl 0
          · rcases hv : r[col]? with _ | v <;> simp only [hv]
            · exact le_refl 0
            · exact le_refl v

/-- A record-update with only the gap penalty leaves the other fields
    unchanged, so the two `scorePair` error behaviours coincide. -/
theorem scorePair_gap_isOk (sch : ScoringScheme) (g1 g2 : ℚ) (c1 c2 : Char) :
    (scorePair { sch with gap_penalty := g1 } c1 c2).isOk =
      (scorePair { sch with gap_penalty := g2 } c1 c2).isOk := by
  rw [scorePair_eq, scorePair_eq]
  split_ifs <;> rfl

/-- The fill raises no exception iff every interior `scoring_scheme(...)`
    call succeeds. -/
theorem firstFillError_eq_none (sch : ScoringScheme) (s1 s2 : List Char) :
    firstFillError sch s1 s2 = none ↔
      ∀ ij ∈ cells s1.length s2.length,
        (scorePair sch (s1.getD (ij.1 - 1) ' ') (s2.getD (ij.2 - 1) ' ')).isOk = true := by
  unfold firstFillError
  rw [List.findSome?_eq_none_iff]
  constructor
  · intro h ij hij
    have h2 := h ij hij
    rcases hp : scorePair sch (s1.getD (ij.1 - 1) ' ') (s2.getD (ij.2 - 1) ' ') with e | v
    · rw [hp] at h2
      cases h2
    · rfl
  · intro h ij hij
    have h2 := h ij hij
    rcases hp : scorePair sch (s1.getD (ij.1 - 1) ' ') (s2.getD (ij.2 - 1) ' ') with e | v
    · rw [hp] at h2
      cases h2
    · rfl

/-- A fill exception aborts `smith_waterman` with exactly that exception. -/
theorem smith_waterman_err (sch : ScoringScheme) (s1 s2 : List Char) (e : SWError)
    (h : firstFillError sch s1 s2 = some e) : smith_waterman sch s1 s2 = .error e := by
  unfold smith_waterman
  rw [h]

/-- On the error-free path, `smith_waterman` returns the best-score fold and
    the backtrace of its locations over the DP matrix. -/
theorem smith_waterman_noerr (sch : ScoringScheme) (s1 s2 : List Char)
    (h : firstFillError sch s1 s2 = none) :
    smith_waterman sch s1 s2 =
      .ok (((cells s1.length s2.length).foldl
            (bestStep (dpA (fun i j => scorePairD sch (s1.getD i ' ') (s2.getD j ' '))
              sch.gap_penalty)) (0, [])).1,
        backtraceAux
          (dpA (fun i j => scorePairD sch (s1.getD i ' ') (s2.getD j ' ')) sch.gap_penalty)
          (fun i j => scorePairD sch (s1.getD i ' ') (s2.getD j ' ')) sch.gap_penalty s1 s2
          (s1.length + s2.length + 2)
          (((cells s1.length s2.length).foldl
            (bestStep (dpA (fun i j => scorePairD sch (s1.getD i ' ') (s2.getD j ' '))
              sch.gap_penalty)) (0, [])).2.map
            (fun ij => (([] : List Char), ([] : List Char), ij.1, ij.2)))) := by
  unfold smith_waterman
  rw [h]

/-- When every visited cell is 0, the fold keeps best score 0 and appends
    every cell as a tied location. -/
theorem bestFold_all_zero (A : Nat → Nat → ℚ) :
    ∀ (cs : List (Nat × Nat)), (∀ x ∈ cs, A x.1 x.2 = 0) →
      ∀ L, cs.foldl (bestStep A) (0, L) = (0, L ++ cs) := by
  intro cs
  induction cs with
  | nil => intro _ L; simp
  | cons c cs ih =>
    intro h L
    rw [List.foldl_cons]
    have hc : A c.1 c.2 = 0 := h c (List.mem_cons_self c cs)
    have hstep : bestStep A (0, L) c = (0, L ++ [c]) := by
      simp [bestStep, hc]
    rw [hstep, ih (fun x hx => h x (List.mem_cons_of_mem c hx)) (L ++ [c])]
    simp

/-- Backtrace records all sitting on 0 cells are flushed immediately and
    produce no further level. -/
theorem backtraceAux_all_zero (A f : Nat → Nat → ℚ) (g : ℚ) (s1 s2 : List Char)
    (ps : List (List Char × List Char × Nat × Nat))
    (h : ∀ p ∈ ps, A p.2.2.1 p.2.2.2 = 0) (fuel : Nat) :
    backtraceAux A f g s1 s2 (fuel + 1) ps = ps.map (fun p => (p.1, p.2.1)) := by
  rw [backtraceAux_succ]
  have h1 : ps.filterMap
      (fun p => if A p.2.2.1 p.2.2.2 = 0 then some (p.1, p.2.1) else none) =
      ps.map (fun p => (p.1, p.2.1)) := by
    induction ps with
    | nil => rfl
    | cons p ps ih =>
      rw [List.filterMap_cons, List.map_cons, if_pos (h p (List.mem_cons_self p ps))]
      rw [ih (fun x hx => h x (List.mem_cons_of_mem p hx))]
  have h2 : (ps.flatMap fun p =>
      if A p.2.2.1 p.2.2.2 = 0 then [] else expandStep A f g s1 s2 p) = [] := by
    clear h1
    induction ps with
    | nil => rfl
    | cons p ps ih =>
      rw [List.flatMap_cons, if_pos (h p (List.mem_cons_self p ps))]
      rw [List.nil_append, ih (fun x hx => h x (List.mem_cons_of_mem p hx))]
  rw [h1, h2, backtraceAux_nil, List.append_nil]

/-- Claim C1, counterexample: with the default scheme on `"A"` / `"T"` every
    cell of the DP matrix is 0, and `smith_waterman` returns best score 0
    together with the one-element alignment list `[("", "")]` — the empty
    alignment tied the initial best score 0 and was recorded — not the empty
    alignment set the claim asserts. -/
theorem C1_counterexample :
    smith_waterman defaultScheme ['A'] ['T'] = .ok (0, [([], [])]) ∧
      ([(([] : List Char), ([] : List Char))] : List (List Char × List Char)) ≠ [] := by
  constructor
  · norm_num +decide [smith_waterman, firstFillError, cells, scorePair, ScoringScheme.score,
      scoreAux, scorePairD, dpA, dpRow, bestStep, expandStep, backtraceAux, defaultScheme,
      List.lookup, List.zip, List.range_succ, List.filterMap_cons, List.flatMap_cons,
      List.flatMap_nil, List.findSome?_cons, List.foldl_cons, List.foldl_nil]
  · simp

/-- Claim C1 (amended): whenever no cell of the DP matrix is positive — in
    particular whenever every consulted pairwise score and the gap penalty
    are ≤ 0 — `smith_waterman` returns best score 0 together with one copy of
    the empty alignment `("", "")` per cell of the matrix (every cell ties
    the initial best score 0 and is recorded as a best location), rather
    than an empty alignment set. -/
theorem C1_theorem (sch : ScoringScheme) (s1 s2 : List Char) (b : ℚ)
    (al : List (List Char × List Char))
    (hok : smith_waterman sch s1 s2 = .ok (b, al))
    (hf : ∀ i < s1.length, ∀ j < s2.length,
      scorePairD sch (s1.getD i ' ') (s2.getD j ' ') ≤ 0)
    (hg : sch.gap_penalty ≤ 0) :
    b = 0 ∧ al = List.replicate (s1.length * s2.length) ([], []) := by
  rcases hfe : firstFillError sch s1 s2 with _ | e
  case some => rw [smith_waterman_err sch s1 s2 e hfe] at hok; cases hok
  rw [smith_waterman_noerr sch s1 s2 hfe] at hok
  injection hok with hok
  injection hok with hb hal
  have hz : ∀ x ∈ cells s1.length s2.length,
      dpA (fun i j => scorePairD sch (s1.getD i ' ') (s2.getD j ' ')) sch.gap_penalty x.1 x.2
        = 0 := by
    intro x hx
    rcases (mem_cells s1.length s2.length x).mp hx with ⟨h1, h2, h3, h4⟩
    exact dpA_eq_zero _ _ x.1 x.2
      (fun a ha bb hbb => hf a (lt_of_lt_of_le ha h2) bb (lt_of_lt_of_le hbb h4)) hg
  have hfold := bestFold_all_zero _ (cells s1.length s2.length) hz []
  rw [List.nil_append] at hfold
  constructor
  · rw [← hb, hfold]
  · rw [← hal, hfold]
    have hseeds : ∀ p ∈ (cells s1.length s2.length).map
        (fun ij => (([] : List Char), ([] : List Char), ij.1, ij.2)),
        dpA (fun i j => scorePairD sch (s1.getD i ' ') (s2.getD j ' ')) sch.gap_penalty
          p.2.2.1 p.2.2.2 = 0 := by
      intro p hp
      rcases List.mem_map.mp hp with ⟨ij, hij, hijp⟩
      rw [← hijp]
      exact hz ij hij
    rw [show s1.length + s2.length + 2 = (s1.length + s2.length + 1) + 1 from rfl]
    rw [backtraceAux_all_zero _ _ _ _ _ _ hseeds]
    rw [List.map_map]
    rw [show ((fun p : List Char × List Char × Nat × Nat => (p.1, p.2.1)) ∘
        (fun ij : Nat × Nat => (([] : List Char), ([] : List Char), ij.1, ij.2))) =
        (fun _ => (([] : List Char), ([] : List Char))) from rfl]
    rw [List.map_const', cells_length]

/-- Witness for C1: the amended claim instantiated at the concrete scenario
    `"A"` / `"T"` under the default scheme. -/
theorem C1_witness :
    (0 : ℚ) = 0 ∧ [(([] : List Char), ([] : List Char))] = List.replicate (1 * 1) ([], []) := by
  have h := C1_theorem defaultScheme ['A'] ['T'] 0 [([], [])]
    (by norm_num +decide [smith_waterman, firstFillError, cells, scorePair,
      ScoringScheme.score, scoreAux, scorePairD, dpA, dpRow, bestStep, expandStep,
      backtraceAux, defaultScheme, List.lookup, List.zip, List.range_succ,
      List.filterMap_cons, List.flatMap_cons, List.flatMap_nil, List.findSome?_cons,
      List.foldl_cons, List.foldl_nil])
    (by
      intro i hi j hj
      have hi1 : i < 1 := by simpa using hi
      have hj1 : j < 1 := by simpa using hj
      have hi0 : i = 0 := by omega
      have hj0 : j = 0 := by omega
      subst hi0; subst hj0
      norm_num +decide [scorePairD, scorePair, ScoringScheme.score, scoreAux, defaultScheme,
        List.zip])
    (by norm_num [defaultScheme])
  exact h

/-- Claim C2, counterexample: on `"AA"` / `"A"` under the default scheme the
    two tied best locations (1,1) and (2,1) backtrace to the *same* alignment
    pair `("A", "A")`, which therefore occurs twice in the returned list —
    the result is not duplicate-free. -/
theorem C2_counterexample :
    smith_waterman defaultScheme ['A', 'A'] ['A'] =
      .ok (1, [(['A'], ['A']), (['A'], ['A'])]) ∧
      ¬ ([((['A'] : List Char), (['A'] : List Char)), (['A'], ['A'])]).Nodup := by
  constructor
  · norm_num +decide [smith_waterman, firstFillError, cells, scorePair, ScoringScheme.score,
      scoreAux, scorePairD, dpA, dpRow, bestStep, expandStep, backtraceAux, defaultScheme,
      List.lookup, List.zip, List.range_succ, List.filterMap_cons, List.flatMap_cons,
      List.flatMap_nil, List.findSome?_cons, List.foldl_cons, List.foldl_nil]
  · simp

/-- Claim C2 (amended): the collection `smith_waterman` returns is a plain
    list, not a de-duplicated set; the same alignment pair can occur several
    times (once per tied backtrace path reaching it).  Concretely, on
    `"AA"` / `"A"` under the default scheme the pair `("A", "A")` is returned
    with multiplicity 2. -/
theorem C2_theorem :
    ((smith_waterman defaultScheme ['A', 'A'] ['A']).toOption.getD (0, [])).2.count
      (['A'], ['A']) = 2 := by
  norm_num +decide [smith_waterman, firstFillError, cells, scorePair, ScoringScheme.score,
    scoreAux, scorePairD, dpA, dpRow, bestStep, expandStep, backtraceAux, defaultScheme,
    List.lookup, List.zip, List.range_succ, List.filterMap_cons, List.flatMap_cons,
    List.flatMap_nil, List.findSome?_cons, List.foldl_cons, List.foldl_nil, Except.toOption,
    List.count_cons, List.count_nil]

/-- Claim C5: the single-symbol scorer used by the engine.  Two gaps raise
    the invalid-input error; exactly one gap scores `gap_penalty`; otherwise,
    with a matrix loaded, the result is `matrix[index(c1)][index(c2)]` and a
    symbol absent from the index raises the precondition (assertion) error;
    with no matrix, equal symbols score `match_score` and unequal ones
    `mismatch_penalty`. -/
theorem C5_theorem (sch : ScoringScheme) (c1 c2 : Char) :
    (c1 = '-' → c2 = '-' → scorePair sch c1 c2 = .error .doubleGap)
    ∧ (c1 = '-' → c2 ≠ '-' → scorePair sch c1 c2 = .ok sch.gap_penalty)
    ∧ (c1 ≠ '-' → c2 = '-' → scorePair sch c1 c2 = .ok sch.gap_penalty)
    ∧ (∀ M d, c1 ≠ '-' → c2 ≠ '-' → sch.scoring_matrix = some M →
        sch.index_by_symbol = some d →
        ((List.lookup (String.mk [c1]) d = none ∨ List.lookup (String.mk [c2]) d = none) →
          scorePair sch c1 c2 = .error .unknownSymbol)
        ∧ (∀ r c row v, List.lookup (String.mk [c1]) d = some r →
            List.lookup (String.mk [c2]) d = some c →
            M[r]? = some row → row[c]? = some v → scorePair sch c1 c2 = .ok v))
    ∧ (c1 ≠ '-' → c2 ≠ '-' → sch.scoring_matrix = none →
        scorePair sch c1 c2 = .ok (if c1 = c2 then sch.match_score else sch.mismatch_penalty)) := by
  refine ⟨?_, ?_, ?_, ?_, ?_⟩
  · intro h1 h2
    rw [scorePair_eq, if_pos ⟨h1, h2⟩]
  · intro h1 h2
    rw [scorePair_eq, if_neg (fun hc => h2 hc.2), if_pos h1]
  · intro h1 h2
    rw [scorePair_eq, if_neg (fun hc => h1 hc.1), if_neg h1, if_pos h2]
  · intro M d h1 h2 hm hd
    constructor
    · intro hnone
      rw [scorePair_eq, if_neg (fun hc => h1 hc.1), if_neg h1, if_neg h2]
      simp only [hm, hd]
      rcases hnone with hn | hn
      · rw [hn]
      · rcases hl1 : List.lookup (String.mk [c1]) d with _ | r <;> rw [hn]
    · intro r c row v hr hc hrow hv
      rw [scorePair_eq, if_neg (fun hc2 => h1 hc2.1), if_neg h1, if_neg h2]
      simp only [hm, hd, hr, hc, hrow, hv]
  · intro h1 h2 hm
    rw [scorePair_eq, if_neg (fun hc => h1 hc.1), if_neg h1, if_neg h2, hm]

/-- Witness for C5: each branch of the pairwise scorer evaluated at a
    concrete input — a gap against `'A'`, a mismatching and a matching pair
    without a matrix, a matrix lookup, and a symbol missing from the loaded
    index. -/
theorem C5_witness :
    scorePair defaultScheme '-' 'A' = .ok defaultScheme.gap_penalty
    ∧ scorePair defaultScheme 'A' '-' = .ok defaultScheme.gap_penalty
    ∧ scorePair defaultScheme 'A' 'A' = .ok (if ('A' : Char) = 'A' then
        defaultScheme.match_score else defaultScheme.mismatch_penalty)
    ∧ scorePair msch 'A' 'B' = .ok 8
    ∧ scorePair msch 'C' 'A' = .error .unknownSymbol
    ∧ scorePair defaultScheme '-' '-' = .error .doubleGap := by
  refine ⟨?_, ?_, ?_, ?_, ?_, ?_⟩
  · exact (C5_theorem defaultScheme '-' 'A').2.1 rfl (by decide)
  · exact (C5_theorem defaultScheme 'A' '-').2.2.1 (by decide) rfl
  · exact (C5_theorem defaultScheme 'A' 'A').2.2.2.2 (by decide) (by decide) rfl
  · exact ((C5_theorem _ 'A' 'B').2.2.2.1 [[7, 8], [0, 0]] [("A", 0), ("B", 1)]
      (by decide) (by decide) rfl rfl).2 0 1 [7, 8] 8 (by decide) (by decide) rfl rfl
  · exact ((C5_theorem _ 'C' 'A').2.2.2.1 [[7, 8], [0, 0]] [("A", 0), ("B", 1)]
      (by decide) (by decide) rfl rfl).1 (Or.inl (by decide))
  · exact (C5_theorem defaultScheme '-' '-').1 rfl rfl

/-- A gap symbol in each input forces a scoring exception during the fill:
    the cell pairing the two gaps raises if it is ever reached, so the fill
    cannot complete error-free. -/
theorem ffe_ne_none_of_gaps (sch : ScoringScheme) (s1 s2 : List Char)
    (h1 : '-' ∈ s1) (h2 : '-' ∈ s2) : firstFillError sch s1 s2 ≠ none := by
  intro hfe
  rw [firstFillError_eq_none] at hfe
  obtain ⟨i, hi, hgi⟩ := List.getElem_of_mem h1
  obtain ⟨j, hj, hgj⟩ := List.getElem_of_mem h2
  have hcell : ((i + 1, j + 1) : Nat × Nat) ∈ cells s1.length s2.length := by
    rw [mem_cells]
    exact ⟨Nat.le_add_left 1 i, Nat.succ_le_of_lt hi, Nat.le_add_left 1 j, Nat.succ_le_of_lt hj⟩
  have hspec := hfe (i + 1, j + 1) hcell
  have hd1 : s1.getD ((i + 1, j + 1).1 - 1) ' ' = '-' := by
    show s1.getD (i + 1 - 1) ' ' = '-'
    rw [Nat.add_sub_cancel, List.getD_eq_getElem s1 ' ' hi, hgi]
  have hd2 : s2.getD ((i + 1, j + 1).2 - 1) ' ' = '-' := by
    show s2.getD (j + 1 - 1) ' ' = '-'
    rw [Nat.add_sub_cancel, List.getD_eq_getElem s2 ' ' hj, hgj]
  rw [hd1, hd2, scorePair_eq, if_pos ⟨rfl, rfl⟩] at hspec
  cases hspec

/-- Claim C10: a `-` inside an input sequence is not an ordinary symbol:
    paired with any non-gap symbol it is charged `gap_penalty` (even when a
    matrix is loaded), and when each input contains a `-` the fill aborts
    with an exception — with no matrix loaded, necessarily the two-gap
    invalid-input `ValueError`. -/
theorem C10_theorem :
    (∀ (sch : ScoringScheme) (c : Char), c ≠ '-' →
      scorePair sch '-' c = .ok sch.gap_penalty ∧ scorePair sch c '-' = .ok sch.gap_penalty)
    ∧ (∀ (sch : ScoringScheme) (s1 s2 : List Char), '-' ∈ s1 → '-' ∈ s2 →
        (smith_waterman sch s1 s2).isOk = false)
    ∧ (∀ (sch : ScoringScheme) (s1 s2 : List Char), sch.scoring_matrix = none →
        '-' ∈ s1 → '-' ∈ s2 → smith_waterman sch s1 s2 = .error .doubleGap) := by
  refine ⟨?_, ?_, ?_⟩
  · intro sch c hc
    constructor
    · rw [scorePair_eq, if_neg (fun hcc => hc hcc.2), if_pos rfl]
    · rw [scorePair_eq, if_neg (fun hcc => hc hcc.1), if_neg hc, if_pos rfl]
  · intro sch s1 s2 h1 h2
    rcases hfe : firstFillError sch s1 s2 with _ | e
    · exact absurd hfe (ffe_ne_none_of_gaps sch s1 s2 h1 h2)
    · rw [smith_waterman_err sch s1 s2 e hfe]
      rfl
  · intro sch s1 s2 hm h1 h2
    rcases hfe : firstFillError sch s1 s2 with _ | e
    · exact absurd hfe (ffe_ne_none_of_gaps sch s1 s2 h1 h2)
    · have hdg : e = .doubleGap := by
        obtain ⟨x, hx, hfx⟩ := List.exists_of_findSome?_eq_some hfe
        rcases hp : scorePair sch (s1.getD (x.1 - 1) ' ') (s2.getD (x.2 - 1) ' ')
            with e2 | v
        · rw [hp] at hfx
          have he : some e2 = some e := hfx
          injection he with he
          rw [scorePair_noMatrix sch hm] at hp
          split_ifs at hp with hgg hg1 hg2
          injection hp with hp2
          rw [← he, ← hp2]
        · rw [hp] at hfx
          exact Option.noConfusion hfx
      rw [hdg] at hfe
      exact smith_waterman_err sch s1 s2 .doubleGap hfe

/-- Witness for C10: `scorePair` charges the gap penalty for `-` against
    `'A'` even with a matrix loaded, and `smith_waterman` on `"-"` vs `"-"`
    raises the two-gap error. -/
theorem C10_witness :
    scorePair msch '-' 'A' = .ok msch.gap_penalty
    ∧ (smith_waterman defaultScheme ['-'] ['-']).isOk = false
    ∧ smith_waterman defaultScheme ['-'] ['-'] = .error .doubleGap := by
  refine ⟨(C10_theorem.1 msch 'A' (by decide)).1,
    C10_theorem.2.1 defaultScheme ['-'] ['-'] (by decide) (by decide),
    C10_theorem.2.2 defaultScheme ['-'] ['-'] rfl (by decide) (by decide)⟩

/-- Claim C6: monotonicity in the gap penalty — for fixed sequences and
    fixed match/mismatch/matrix parameters, a gap penalty closer to 0 never
    decreases the best score `smith_waterman` returns. -/
theorem C6_theorem (sch : ScoringScheme) (g1 g2 : ℚ) (s1 s2 : List Char)
    (b1 b2 : ℚ) (al1 al2 : List (List Char × List Char))
    (hg : g1 ≤ g2)
    (h1 : smith_waterman { sch with gap_penalty := g1 } s1 s2 = .ok (b1, al1))
    (h2 : smith_waterman { sch with gap_penalty := g2 } s1 s2 = .ok (b2, al2)) :
    b1 ≤ b2 := by
  rcases hf1 : firstFillError { sch with gap_penalty := g1 } s1 s2 with _ | e1
  case some => rw [smith_waterman_err _ s1 s2 e1 hf1] at h1; cases h1
  rcases hf2 : firstFillError { sch with gap_penalty := g2 } s1 s2 with _ | e2
  case some => rw [smith_waterman_err _ s1 s2 e2 hf2] at h2; cases h2
  rw [smith_waterman_noerr _ s1 s2 hf1] at h1
  rw [smith_waterman_noerr _ s1 s2 hf2] at h2
  injection h1 with h1
  injection h1 with hb1 _
  injection h2 with h2
  injection h2 with hb2 _
  rw [← hb1, ← hb2, bestFold_fst, bestFold_fst]
  refine foldlMax_mono _ _ _ ?_ 0 0 (le_refl 0)
  intro ij _
  exact dpA_mono _ _ _ _
    (fun a b => scorePairD_gap_mono sch g1 g2 hg (s1.getD a ' ') (s2.getD b ' ')) hg ij.1 ij.2

/-- Witness for C6: gap penalties -2 ≤ -1 on `"A"` vs `"A"` under otherwise
    default parameters; both runs return best score 1 and indeed 1 ≤ 1. -/
theorem C6_witness : (1 : ℚ) ≤ 1 := by
  refine C6_theorem defaultScheme (-2) (-1) ['A'] ['A'] 1 1
    [(['A'], ['A'])] [(['A'], ['A'])] (by norm_num) ?_ ?_ <;>
    norm_num +decide [smith_waterman, firstFillError, cells, scorePair, ScoringScheme.score,
      scoreAux, scorePairD, dpA, dpRow, bestStep, expandStep, backtraceAux, defaultScheme,
      List.lookup, List.zip, List.range_succ, List.filterMap_cons, List.flatMap_cons,
      List.flatMap_nil, List.findSome?_cons, List.foldl_cons, List.foldl_nil]

/-- The identity diagonal bounds the DP matrix from below: if every diagonal
    pairwise score is at least `c`, cell `(n, n)` is at least `n * c`. -/
theorem dpA_diag_ge (f : Nat → Nat → ℚ) (g : ℚ) (c : ℚ) :
    ∀ n : Nat, (∀ k < n, c ≤ f k k) → (n : ℚ) * c ≤ dpA f g n n := by
  intro n
  induction n with
  | zero => intro _; simpa using dpA_nonneg f g 0 0
  | succ n ih =>
    intro hf
    have h1 : (n : ℚ) * c ≤ dpA f g n n := ih (fun k hk => hf k (Nat.lt_succ_of_lt hk))
    have h2 : c ≤ f n n := hf n (Nat.lt_succ_self n)
    have h3 : dpA f g n n + f n n ≤ dpA f g (n + 1) (n + 1) := by
      rw [dpA_succ]
      exact le_trans (le_max_left _ _) (le_max_left _ _)
    push_cast
    linarith

/-- With no gap symbol in either input and no matrix loaded, the fill never
    raises. -/
theorem ffe_none_of_noMatrix_noGap (sch : ScoringScheme) (hm : sch.scoring_matrix = none)
    (s1 s2 : List Char) (h1 : '-' ∉ s1) (h2 : '-' ∉ s2) :
    firstFillError sch s1 s2 = none := by
  rw [firstFillError_eq_none]
  intro ij hij
  rcases (mem_cells s1.length s2.length ij).mp hij with ⟨hi1, hi2, hj1, hj2⟩
  have hc1 : s1.getD (ij.1 - 1) ' ' ≠ '-' := by
    intro hc
    apply h1
    rw [← hc]
    have hlt : ij.1 - 1 < s1.length := by omega
    rw [List.getD_eq_getElem s1 ' ' hlt]
    exact List.getElem_mem hlt
  have hc2 : s2.getD (ij.2 - 1) ' ' ≠ '-' := by
    intro hc
    apply h2
    rw [← hc]
    have hlt : ij.2 - 1 < s2.length := by omega
    rw [List.getD_eq_getElem s2 ' ' hlt]
    exact List.getElem_mem hlt
  rw [scorePair_noMatrix sch hm, if_neg (fun hc => hc1 hc.1), if_neg hc1, if_neg hc2]
  rfl

/-- Claim C7, counterexample: the claim quantifies over every non-empty
    sequence, but for the sequence `"-"` aligning it with itself raises the
    two-gap `ValueError` instead of returning any best score. -/
theorem C7_counterexample :
    smith_waterman defaultScheme ['-'] ['-'] = .error .doubleGap ∧
      (smith_waterman defaultScheme ['-'] ['-']).isOk = false := by
  have h : smith_waterman defaultScheme ['-'] ['-'] = .error .doubleGap := by
    norm_num +decide [smith_waterman, firstFillError, cells, scorePair, ScoringScheme.score,
      scoreAux, scorePairD, defaultScheme, List.zip, List.range_succ, List.findSome?_cons]
  exact ⟨h, by rw [h]; rfl⟩

/-- Claim C7 (amended): for every non-empty sequence `s` that does not
    contain the gap symbol, aligning `s` with itself under the default scheme
    succeeds, and the best score is at least `len(s) * match_score` — the
    identity diagonal is an available path. -/
theorem C7_theorem :
    (∀ s : List Char, s ≠ [] → '-' ∉ s → (smith_waterman defaultScheme s s).isOk = true)
    ∧ (∀ (s : List Char) (b : ℚ) (al : List (List Char × List Char)), s ≠ [] → '-' ∉ s →
        smith_waterman defaultScheme s s = .ok (b, al) →
        (s.length : ℚ) * defaultScheme.match_score ≤ b) := by
  constructor
  · intro s hne hng
    rw [smith_waterman_noerr _ _ _ (ffe_none_of_noMatrix_noGap defaultScheme rfl s s hng hng)]
    rfl
  · intro s b al hne hng hok
    rw [smith_waterman_noerr _ _ _ (ffe_none_of_noMatrix_noGap defaultScheme rfl s s hng hng)]
      at hok
    injection hok with hok
    injection hok with hb _
    rw [← hb, bestFold_fst]
    have hdiag : ∀ k < s.length, (1 : ℚ) ≤
        scorePairD defaultScheme (s.getD k ' ') (s.getD k ' ') := by
      intro k hk
      have hc : s.getD k ' ' ≠ '-' := by
        intro hc
        apply hng
        rw [← hc, List.getD_eq_getElem s ' ' hk]
        exact List.getElem_mem hk
      unfold scorePairD
      rw [scorePair_noMatrix defaultScheme rfl, if_neg (fun hcc => hc hcc.1), if_neg hc,
        if_neg hc, if_pos rfl]
      exact le_refl 1
    have hnn : ((s.length, s.length) : Nat × Nat) ∈ cells s.length s.length := by
      rw [mem_cells]
      have : 1 ≤ s.length := by
        rcases s with _ | ⟨c, s⟩
        · exact absurd rfl hne
        · simp
      exact ⟨this, le_refl _, this, le_refl _⟩
    have hA := dpA_diag_ge (fun i j => scorePairD defaultScheme (s.getD i ' ') (s.getD j ' '))
      defaultScheme.gap_penalty 1 s.length (fun k hk => hdiag k hk)
    have hfold := mem_le_foldlMax
      (dpA (fun i j => scorePairD defaultScheme (s.getD i ' ') (s.getD j ' '))
        defaultScheme.gap_penalty)
      (cells s.length s.length) (s.length, s.length) hnn 0
    have hms : defaultScheme.match_score = 1 := rfl
    rw [hms, mul_one]
    rw [mul_one] at hA
    exact le_trans hA hfold

/-- Witness for C7: the amended claim at `s = "A"`. -/
theorem C7_witness :
    (smith_waterman defaultScheme ['A'] ['A']).isOk = true
    ∧ ((['A'] : List Char).length : ℚ) * defaultScheme.match_score ≤ 1 := by
  refine ⟨C7_theorem.1 ['A'] (by decide) (by decide),
    C7_theorem.2 ['A'] 1 [(['A'], ['A'])] (by decide) (by decide) ?_⟩
  norm_num +decide [smith_waterman, firstFillError, cells, scorePair, ScoringScheme.score,
    scoreAux, scorePairD, dpA, dpRow, bestStep, expandStep, backtraceAux, defaultScheme,
    List.lookup, List.zip, List.range_succ, List.filterMap_cons, List.flatMap_cons,
    List.flatMap_nil, List.findSome?_cons, List.foldl_cons, List.foldl_nil]

/-- Claim C4, counterexample: loading `["A B", "C 1 2"]` (row symbol `C` is
    not in the header) raises the `KeyError`, yet the scheme now holds the
    header's index map — its `index_by_symbol` is no longer the `None` it was
    before the call, so a partial matrix state *is* retained. -/
theorem C4_counterexample :
    (ScoringScheme.load_matrix defaultScheme ["A B", "C 1 2"]).2 = some .keyError
    ∧ (ScoringScheme.load_matrix defaultScheme ["A B", "C 1 2"]).1.index_by_symbol
        = some [("A", 0), ("B", 1)]
    ∧ (ScoringScheme.load_matrix defaultScheme ["A B", "C 1 2"]).1.index_by_symbol
        ≠ defaultScheme.index_by_symbol := by
  refine ⟨?_, ?_, ?_⟩
  · norm_num +decide [ScoringScheme.load_matrix, skipComments, pySplit, splitWsAux,
      buildIndex, dictInsert, fillRows, fillRow, fillVals, setEntry, pythonFloat?,
      digitsToNat, List.lookup, List.enum, List.enumFrom, List.foldl_cons, List.foldl_nil]
  · norm_num +decide [ScoringScheme.load_matrix, skipComments, pySplit, splitWsAux,
      buildIndex, dictInsert, fillRows, fillRow, fillVals, setEntry, pythonFloat?,
      digitsToNat, List.lookup, List.enum, List.enumFrom, List.foldl_cons, List.foldl_nil]
  · intro h
    rw [show defaultScheme.index_by_symbol = none from rfl] at h
    have h2 : (ScoringScheme.load_matrix defaultScheme ["A B", "C 1 2"]).1.index_by_symbol
        = some [("A", 0), ("B", 1)] := by
      norm_num +decide [ScoringScheme.load_matrix, skipComments, pySplit, splitWsAux,
        buildIndex, dictInsert, fillRows, fillRow, fillVals, setEntry, pythonFloat?,
        digitsToNat, List.lookup, List.enum, List.enumFrom, List.foldl_cons, List.foldl_nil]
    rw [h] at h2
    cases h2

/-- Claim C4 (amended): `load_matrix` does fail fast — a missing header
    (EOF while skipping comments, or an empty line in that position) leaves
    the scheme exactly as it was — but it is *not* atomic once the header has
    been read: whatever the row loop's outcome, the scheme ends up holding
    the header's new `index_by_symbol` and the row loop's matrix (zero-filled
    and then partially written), even when the call raises a `KeyError`,
    `ValueError` or `IndexError` on a data row. -/
theorem C4_theorem :
    (∀ (sch : ScoringScheme) (lines : List String) (e : SWError),
      skipComments lines = .error e →
      ScoringScheme.load_matrix sch lines = (sch, some e))
    ∧ (∀ (sch : ScoringScheme) (lines : List String) (headline : String) (rest : List String),
        skipComments lines = .ok (headline, rest) →
        (ScoringScheme.load_matrix sch lines).1.index_by_symbol
          = some (buildIndex (pySplit headline))
        ∧ (ScoringScheme.load_matrix sch lines).1.scoring_matrix
          = some (fillRows (buildIndex (pySplit headline))
              (List.replicate (buildIndex (pySplit headline)).length
                (List.replicate (buildIndex (pySplit headline)).length 0)) rest).1) := by
  constructor
  · intro sch lines e h
    unfold ScoringScheme.load_matrix
    rw [h]
  · intro sch lines headline rest h
    simp only [ScoringScheme.load_matrix, h]
    rcases hfr : fillRows (buildIndex (pySplit headline))
        (List.replicate (buildIndex (pySplit headline)).length
          (List.replicate (buildIndex (pySplit headline)).length 0)) rest with ⟨M, e⟩
    exact ⟨trivial, trivial⟩

/-- Witness for C4: a file that ends inside the comment block leaves the
    default scheme untouched; after reading the header `"A B"` the scheme
    holds the index `{A: 0, B: 1}` whatever the rows do. -/
theorem C4_witness :
    ScoringScheme.load_matrix defaultScheme ["# only a comment"] =
      (defaultScheme, some .indexError)
    ∧ (ScoringScheme.load_matrix defaultScheme ["A B", "C 1 2"]).1.index_by_symbol
      = some (buildIndex (pySplit "A B")) := by
  constructor
  · exact C4_theorem.1 defaultScheme ["# only a comment"] .indexError (by
      norm_num +decide [skipComments])
  · exact (C4_theorem.2 defaultScheme ["A B", "C 1 2"] "A B" ["C 1 2"] (by
      norm_num +decide [skipComments])).1

/-- Unconsing a `drop`: the head is the element at `k`, the tail drops one
    more. -/
theorem drop_eq_cons_parts (l : List (Char × Char)) :
    ∀ (k : Nat) (a : Char × Char) (t : List (Char × Char)), l.drop k = a :: t →
      k < l.length ∧ l[k]? = some a ∧ t = l.drop (k + 1) := by
  induction l with
  | nil =>
    intro k a t h
    rw [List.drop_nil] at h
    cases h
  | cons x xs ih =>
    intro k a t h
    rcases k with _ | k
    · rw [List.drop_zero] at h
      injection h with h1 h2
      refine ⟨Nat.succ_pos _, ?_, ?_⟩
      · rw [← h1]; simp
      · rw [← h2]; rfl
    · have h2 : xs.drop k = a :: t := h
      rcases ih k a t h2 with ⟨hlt, hget, ht⟩
      refine ⟨Nat.succ_lt_succ hlt, ?_, ?_⟩
      · simpa using hget
      · simpa using ht

/-- The whole-alignment scorer as a column-by-column sum: for a matrix-free
    scheme, on a suffix of the zipped columns the accumulator result is the
    start value plus the sum of the per-column contributions `contribC3`
    (gap penalty, plus gap-start penalty exactly when the gap does not extend
    a gap run of the same sequence; match/mismatch otherwise). -/
theorem scoreAux_sum (sch : ScoringScheme) (a1 a2 : List Char)
    (hm : sch.scoring_matrix = none) :
    ∀ (l : List (Char × Char)) (k : Nat) (acc : ℚ),
      l = (a1.zip a2).drop k →
      (∀ i, k ≤ i → i < (a1.zip a2).length →
        ¬(a1.getD i ' ' = '-' ∧ a2.getD i ' ' = '-')) →
      scoreAux sch a1 a2 k acc l =
        .ok (acc + ((List.range ((a1.zip a2).length - k)).map
          (fun m => contribC3 sch a1 a2 (k + m))).sum) := by
  intro l
  induction l with
  | nil =>
    intro k acc hl hnd
    have hk : (a1.zip a2).length ≤ k := List.drop_eq_nil_iff.mp hl.symm
    rw [Nat.sub_eq_zero_of_le hk]
    simp [scoreAux]
  | cons p l ih =>
    rcases p with ⟨c1, c2⟩
    intro k acc hl hnd
    rcases drop_eq_cons_parts (a1.zip a2) k (c1, c2) l hl.symm with ⟨hklt, hget, hl2⟩
    have hz := List.getElem?_zip_eq_some.mp hget
    have hc1 : a1.getD k ' ' = c1 := by rw [List.getD_eq_getElem?_getD, hz.1]; rfl
    have hc2 : a2.getD k ' ' = c2 := by rw [List.getD_eq_getElem?_getD, hz.2]; rfl
    have hnd0 : ¬(c1 = '-' ∧ c2 = '-') := by
      intro hcc
      exact hnd k (le_refl k) hklt ⟨hc1.trans hcc.1, hc2.trans hcc.2⟩
    have hlen : (a1.zip a2).length - k = ((a1.zip a2).length - (k + 1)) + 1 := by omega
    have hsplit : ((List.range ((a1.zip a2).length - k)).map
        (fun m => contribC3 sch a1 a2 (k + m))).sum =
        contribC3 sch a1 a2 k +
          ((List.range ((a1.zip a2).length - (k + 1))).map
            (fun m => contribC3 sch a1 a2 (k + 1 + m))).sum := by
      rw [hlen, List.range_succ_eq_map, List.map_cons, List.sum_cons, Nat.add_zero]
      congr 1
      rw [List.map_map]
      congr 1
      apply List.map_congr_left
      intro a _
      show contribC3 sch a1 a2 (k + (a + 1)) = contribC3 sch a1 a2 (k + 1 + a)
      congr 1
      omega
    have hnd2 : ∀ i, k + 1 ≤ i → i < (a1.zip a2).length →
        ¬(a1.getD i ' ' = '-' ∧ a2.getD i ' ' = '-') :=
      fun i hi hilen => hnd i (by omega) hilen
    by_cases h1 : c1 = '-'
    · have hstep : scoreAux sch a1 a2 k acc ((c1, c2) :: l) =
          scoreAux sch a1 a2 (k + 1)
            (acc + sch.gap_penalty +
              (if 0 < k ∧ a1.getD (k - 1) ' ' ≠ '-' then sch.gap_start_penalty else 0)) l := by
        simp only [scoreAux]
        rw [if_neg hnd0, if_pos h1]
      have hcontrib : contribC3 sch a1 a2 k = sch.gap_penalty +
          (if 0 < k ∧ a1.getD (k - 1) ' ' ≠ '-' then sch.gap_start_penalty else 0) := by
        unfold contribC3
        rw [hc1, if_pos h1]
      rw [hstep, ih (k + 1) _ hl2 hnd2, hsplit, hcontrib]
      congr 1
      ring
    · by_cases h2 : c2 = '-'
      · have hstep : scoreAux sch a1 a2 k acc ((c1, c2) :: l) =
            scoreAux sch a1 a2 (k + 1)
              (acc + sch.gap_penalty +
                (if 0 < k ∧ a2.getD (k - 1) ' ' ≠ '-' then sch.gap_start_penalty else 0)) l := by
          simp only [scoreAux]
          rw [if_neg hnd0, if_neg h1, if_pos h2]
        have hcontrib : contribC3 sch a1 a2 k = sch.gap_penalty +
            (if 0 < k ∧ a2.getD (k - 1) ' ' ≠ '-' then sch.gap_start_penalty else 0) := by
          unfold contribC3
          rw [hc1, hc2, if_neg h1, if_pos h2]
        rw [hstep, ih (k + 1) _ hl2 hnd2, hsplit, hcontrib]
        congr 1
        ring
      · have hstep : scoreAux sch a1 a2 k acc ((c1, c2) :: l) =
            scoreAux sch a1 a2 (k + 1)
              (acc + if c1 = c2 then sch.match_score else sch.mismatch_penalty) l := by
          simp only [scoreAux]
          rw [if_neg hnd0, if_neg h1, if_neg h2, hm]
        have hcontrib : contribC3 sch a1 a2 k =
            if c1 = c2 then sch.match_score else sch.mismatch_penalty := by
          unfold contribC3
          rw [hc1, hc2, if_neg h1, if_neg h2]
        rw [hstep, ih (k + 1) _ hl2 hnd2, hsplit, hcontrib]
        congr 1
        ring

/-- Claim C3, counterexample: on the alignment `("A-", "-A")` with
    `gap_start_penalty = 5`, the scorer checks the previous column of the
    *same* (gapped) sequence, charging `-1` and then `-1 + 5`, total `3`; the
    claim's rule — check the previous column of the *other* sequence — totals
    `-2` because the other sequence's previous column is already a gap.  The
    code and the claim disagree on this input. -/
theorem C3_counterexample :
    ScoringScheme.score sch3 ['A', '-'] ['-', 'A'] = .ok 3
    ∧ ((List.range 2).map (contribClaimC3 sch3 ['A', '-'] ['-', 'A'])).sum = -2
    ∧ (3 : ℚ) ≠ -2 := by
  refine ⟨?_, ?_, by norm_num⟩
  · norm_num +decide [ScoringScheme.score, scoreAux, sch3, List.zip]
  · norm_num +decide [contribClaimC3, List.range_succ, sch3]

/-- Claim C3 (amended): for a matrix-free scheme and alignments with no
    double-gap column, the whole-alignment scorer is the sum over the zipped
    columns of `contribC3`: a gap column is charged `gap_penalty`, plus
    `gap_start_penalty` exactly when `i > 0` and the previous symbol of the
    *same* (gapped) sequence is not a gap — so a gap in column 0 is never
    charged the start penalty.  Moreover this whole-alignment scorer is the
    only consumer of `gap_start_penalty`: changing it changes neither the
    engine (`smith_waterman`) nor the pairwise scorer the engine uses. -/
theorem C3_theorem :
    (∀ (sch : ScoringScheme) (a1 a2 : List Char), sch.scoring_matrix = none →
      (∀ i < (a1.zip a2).length, ¬(a1.getD i ' ' = '-' ∧ a2.getD i ' ' = '-')) →
      ScoringScheme.score sch a1 a2 =
        .ok (((List.range (a1.zip a2).length).map (contribC3 sch a1 a2)).sum))
    ∧ (∀ (sch : ScoringScheme) (g : ℚ) (s1 s2 : List Char),
        smith_waterman { sch with gap_start_penalty := g } s1 s2 = smith_waterman sch s1 s2)
    ∧ (∀ (sch : ScoringScheme) (g : ℚ) (c1 c2 : Char),
        scorePair { sch with gap_start_penalty := g } c1 c2 = scorePair sch c1 c2) := by
  refine ⟨?_, ?_, fun sch g c1 c2 => scorePair_gsp sch g c1 c2⟩
  · intro sch a1 a2 hm hnd
    unfold ScoringScheme.score
    rw [scoreAux_sum sch a1 a2 hm (a1.zip a2) 0 0 rfl
      (fun i _ hilen => hnd i hilen)]
    rw [zero_add, Nat.sub_zero]
    congr 1
    congr 1
    apply List.map_congr_left
    intro a _
    rw [Nat.zero_add]
  · intro sch g s1 s2
    rfl

/-- Witness for C3: the column-sum form evaluated on the alignment
    `("A-", "AA")` with `gap_start_penalty = 5`: match (+1), then gap with
    start (-1 + 5), total 5; and the engine result on `"A"`/`"A"` is
    unchanged by the start penalty. -/
theorem C3_witness :
    ScoringScheme.score sch3 ['A', '-'] ['A', 'A'] = .ok 5
    ∧ smith_waterman { defaultScheme with gap_start_penalty := 5 } ['A'] ['A'] =
        smith_waterman defaultScheme ['A'] ['A'] := by
  constructor
  · have h := C3_theorem.1 sch3 ['A', '-'] ['A', 'A'] rfl (by decide)
    rw [h]
    norm_num +decide [contribC3, sch3, List.range_succ]
  · exact C3_theorem.2.1 defaultScheme 5 ['A'] ['A']

/-- Stripping keeps a leading non-gap symbol. -/
theorem stripGaps_cons_ne (c : Char) (l : List Char) (hc : c ≠ '-') :
    stripGaps (c :: l) = c :: stripGaps l := by
  simp [stripGaps, hc]

/-- Stripping removes a leading gap. -/
theorem stripGaps_cons_gap (l : List Char) : stripGaps ('-' :: l) = stripGaps l := by
  simp [stripGaps]

/-- `substringOf` agrees with its executable check. -/
theorem substringOf_iff (u s : List Char) : substringOf u s ↔ substringOfB u s = true := by
  constructor
  · rintro ⟨a, b, hab⟩
    unfold substringOfB
    rw [List.any_eq_true]
    refine ⟨a.length, ?_, ?_⟩
    · rw [List.mem_range, hab]
      simp
      omega
    · rw [beq_iff_eq, hab, List.append_assoc, List.drop_left, List.take_left]
  · intro h
    unfold substringOfB at h
    rw [List.any_eq_true] at h
    rcases h with ⟨k, _, hk⟩
    rw [beq_iff_eq] at hk
    have hsplit : s = s.take k ++ ((s.drop k).take u.length ++ (s.drop k).drop u.length) := by
      rw [List.take_append_drop, List.take_append_drop]
    have hrw : s.take k ++ ((s.drop k).take u.length ++ (s.drop k).drop u.length) =
        s.take k ++ (u ++ (s.drop k).drop u.length) := by
      rw [hk]
    refine ⟨s.take k, (s.drop k).drop u.length, ?_⟩
    rw [List.append_assoc]
    exact hsplit.trans hrw

/-- Membership in a one-element conditional list. -/
theorem mem_ite_singleton {α : Type} (c : Prop) [Decidable c] (x q : α)
    (h : q ∈ (if c then [x] else [])) : q = x := by
  by_cases hc : c
  · rw [if_pos hc] at h
    exact List.mem_singleton.mp h
  · rw [if_neg hc] at h
    cases h

/-- The backtrace invariant: when neither input contains the gap symbol,
    every record `(a1, a2, i, j)` whose stripped accumulated rows are
    prefixes of `drop i s1` / `drop j s2` only produces alignments whose
    stripped rows are contiguous substrings of the inputs — each expansion
    prepends either the sequence symbol adjacent to the window or a gap. -/
theorem backtrace_strip_substring (f : Nat → Nat → ℚ) (g : ℚ) (s1 s2 : List Char)
    (h1 : '-' ∉ s1) (h2 : '-' ∉ s2) :
    ∀ (fuel : Nat) (ps : List (List Char × List Char × Nat × Nat)),
      (∀ p ∈ ps, p.2.2.1 ≤ s1.length ∧ p.2.2.2 ≤ s2.length ∧
        (∃ t, s1.drop p.2.2.1 = stripGaps p.1 ++ t) ∧
        (∃ t, s2.drop p.2.2.2 = stripGaps p.2.1 ++ t)) →
      ∀ pr ∈ backtraceAux (dpA f g) f g s1 s2 fuel ps,
        substringOf (stripGaps pr.1) s1 ∧ substringOf (stripGaps pr.2) s2 := by
  intro fuel
  induction fuel with
  | zero =>
    intro ps _ pr hpr
    cases hpr
  | succ fuel ih =>
    intro ps hps pr hpr
    rw [backtraceAux_succ] at hpr
    rcases List.mem_append.mp hpr with hpr | hpr
    · rcases List.mem_filterMap.mp hpr with ⟨p, hp, hsome⟩
      by_cases hz : dpA f g p.2.2.1 p.2.2.2 = 0
      · rw [if_pos hz] at hsome
        injection hsome with hsome
        obtain ⟨hin, hjn, ⟨t1, ht1⟩, ⟨t2, ht2⟩⟩ := hps p hp
        subst hsome
        constructor
        · refine ⟨s1.take p.2.2.1, t1, ?_⟩
          rw [List.append_assoc, ← ht1, List.take_append_drop]
        · refine ⟨s2.take p.2.2.2, t2, ?_⟩
          rw [List.append_assoc, ← ht2, List.take_append_drop]
      · rw [if_neg hz] at hsome
        cases hsome
    · refine ih _ ?_ pr hpr
      intro q hq
      rcases List.mem_flatMap.mp hq with ⟨p, hp, hqexp⟩
      by_cases hz : dpA f g p.2.2.1 p.2.2.2 = 0
      · rw [if_pos hz] at hqexp
        cases hqexp
      · rw [if_neg hz] at hqexp
        obtain ⟨hin, hjn, ⟨t1, ht1⟩, ⟨t2, ht2⟩⟩ := hps p hp
        obtain ⟨hipos, hjpos⟩ := dpA_ne_zero_pos f g _ _ hz
        rcases p with ⟨a1, a2, i, j⟩
        rcases i with _ | i
        · exact absurd hipos (lt_irrefl 0)
        rcases j with _ | j
        · exact absurd hjpos (lt_irrefl 0)
        simp only at hin hjn ht1 ht2
        have hi1 : i < s1.length := by omega
        have hj1 : j < s2.length := by omega
        have hc1 : s1.getD i ' ' ≠ '-' := by
          intro hc
          apply h1
          rw [← hc, List.getD_eq_getElem s1 ' ' hi1]
          exact List.getElem_mem hi1
        have hc2 : s2.getD j ' ' ≠ '-' := by
          intro hc
          apply h2
          rw [← hc, List.getD_eq_getElem s2 ' ' hj1]
          exact List.getElem_mem hj1
        have hd1 : s1.drop i = s1.getD i ' ' :: (stripGaps a1 ++ t1) := by
          rw [drop_getD_cons s1 i hi1 ' ', ht1]
        have hd2 : s2.drop j = s2.getD j ' ' :: (stripGaps a2 ++ t2) := by
          rw [drop_getD_cons s2 j hj1 ' ', ht2]
        simp only [expandStep] at hqexp
        rcases List.mem_append.mp hqexp with hq12 | hq3
        · rcases List.mem_append.mp hq12 with hqd | hqu
          · -- diagonal move
            have hqe := mem_ite_singleton _ _ q hqd
            subst hqe
            simp only [Nat.add_sub_cancel]
            refine ⟨by omega, by omega, ?_, ?_⟩
            · refine ⟨t1, ?_⟩
              rw [stripGaps_cons_ne _ _ hc1, hd1]
              rfl
            · refine ⟨t2, ?_⟩
              rw [stripGaps_cons_ne _ _ hc2, hd2]
              rfl
          · -- up move
            have hqe := mem_ite_singleton _ _ q hqu
            subst hqe
            simp only [Nat.add_sub_cancel]
            refine ⟨by omega, by omega, ?_, ?_⟩
            · refine ⟨t1, ?_⟩
              rw [stripGaps_cons_ne _ _ hc1, hd1]
              rfl
            · refine ⟨t2, ?_⟩
              rw [stripGaps_cons_gap]
              exact ht2
        · -- left move
          have hqe := mem_ite_singleton _ _ q hq3
          subst hqe
          simp only [Nat.add_sub_cancel]
          refine ⟨by omega, by omega, ?_, ?_⟩
          · refine ⟨t1, ?_⟩
            rw [stripGaps_cons_gap]
            exact ht1
          · refine ⟨t2, ?_⟩
            rw [stripGaps_cons_ne _ _ hc2, hd2]
            rfl

set_option maxHeartbeats 3200000 in
/-- Claim C8, counterexample: with a positive gap penalty (`sch8`), an
    optimal backtrace path on `"A-B"` vs `"AB"` runs through the literal `-`
    character of sequence 1, and the returned alignment `("A-B", "A-B")`
    strips to `"AB"`, which is *not* a contiguous substring of `"A-B"`. -/
theorem C8_counterexample :
    (['A', '-', 'B'], ['A', '-', 'B']) ∈
      ((smith_waterman sch8 ['A', '-', 'B'] ['A', 'B']).toOption.getD (0, [])).2
    ∧ ¬ substringOf (stripGaps ['A', '-', 'B']) ['A', '-', 'B'] := by
  constructor
  · norm_num +decide [smith_waterman, firstFillError, cells, scorePair, ScoringScheme.score,
      scoreAux, scorePairD, dpA, dpRow, bestStep, expandStep, backtraceAux, sch8,
      List.lookup, List.zip, List.range_succ, List.filterMap_cons, List.flatMap_cons,
      List.flatMap_nil, List.findSome?_cons, List.foldl_cons, List.foldl_nil,
      Except.toOption]
  · rw [substringOf_iff]
    decide

/-- Claim C8 (amended): for inputs that do not themselves contain the gap
    symbol, the substring invariant holds for every scheme: removing the gap
    symbols from either row of any returned alignment yields a contiguous
    substring of the corresponding input sequence. -/
theorem C8_theorem (sch : ScoringScheme) (s1 s2 : List Char) (b : ℚ)
    (al : List (List Char × List Char)) (h1 : '-' ∉ s1) (h2 : '-' ∉ s2)
    (hok : smith_waterman sch s1 s2 = .ok (b, al)) :
    ∀ a1 a2, (a1, a2) ∈ al →
      substringOf (stripGaps a1) s1 ∧ substringOf (stripGaps a2) s2 := by
  intro a1 a2 hmem
  rcases hfe : firstFillError sch s1 s2 with _ | e
  case some => rw [smith_waterman_err sch s1 s2 e hfe] at hok; cases hok
  rw [smith_waterman_noerr sch s1 s2 hfe] at hok
  injection hok with hok
  injection hok with _ hal
  rw [← hal] at hmem
  refine backtrace_strip_substring _ sch.gap_penalty s1 s2 h1 h2 _ _ ?_ (a1, a2) hmem
  · intro p hp
    rcases List.mem_map.mp hp with ⟨ij, hij, hijp⟩
    have hcell : ij ∈ cells s1.length s2.length := by
      rcases bestFold_locs_subset _ _ _ ij hij with hc | hc
      · cases hc
      · exact hc
    rcases (mem_cells s1.length s2.length ij).mp hcell with ⟨_, hi2, _, hj2⟩
    rw [← hijp]
    exact ⟨hi2, hj2, ⟨s1.drop ij.1, by simp [stripGaps]⟩, ⟨s2.drop ij.2, by simp [stripGaps]⟩⟩

/-- Witness for C8: the amended invariant at the default scheme on
    `"A"` vs `"A"`, whose only alignment `("A", "A")` strips to substrings. -/
theorem C8_witness :
    substringOf (stripGaps ['A']) ['A'] ∧ substringOf (stripGaps ['A']) ['A'] := by
  refine C8_theorem defaultScheme ['A'] ['A'] 1 [(['A'], ['A'])] (by decide) (by decide)
    ?_ ['A'] ['A'] (by simp)
  norm_num +decide [smith_waterman, firstFillError, cells, scorePair, ScoringScheme.score,
    scoreAux, scorePairD, dpA, dpRow, bestStep, expandStep, backtraceAux, defaultScheme,
    List.lookup, List.zip, List.range_succ, List.filterMap_cons, List.flatMap_cons,
    List.flatMap_nil, List.findSome?_cons, List.foldl_cons, List.foldl_nil]

/-- `fillVals` writes only into row `i`: any other row of the matrix is
    unchanged, whether or not the loop finishes. -/
theorem fillVals_other_rows :
    ∀ (vals : List String) (M : List (List ℚ)) (i j : Nat) (M2 : List (List ℚ))
      (e : Option SWError), fillVals M i j vals = (M2, e) →
      ∀ i2, i2 ≠ i → M2[i2]? = M[i2]? := by
  intro vals
  induction vals with
  | nil =>
    intro M i j M2 e h i2 hne
    injection h with h1 _
    rw [← h1]
  | cons v vs ih =>
    intro M i j M2 e h i2 hne
    simp only [fillVals] at h
    rcases hp : pythonFloat? v with _ | q <;> simp only [hp] at h
    · injection h with h1 _
      rw [← h1]
    · rcases hs : setEntry M i j q with _ | M3 <;> simp only [hs] at h
      · injection h with h1 _
        rw [← h1]
      · rw [ih M3 i (j + 1) M2 e h i2 hne]
        unfold setEntry at hs
        rcases hrow : M[i]? with _ | row <;> simp only [hrow] at hs
        · cases hs
        · by_cases hj : j < row.length
          · rw [if_pos hj] at hs
            injection hs with hs
            rw [← hs]
            exact List.getElem?_set_ne (Ne.symm hne)
          · rw [if_neg hj] at hs
            cases hs

/-- `fillVals` starting at column `j` never touches a column at or beyond
    `j + vals.length` of row `i`. -/
theorem fillVals_high_cols :
    ∀ (vals : List String) (M : List (List ℚ)) (i j : Nat) (M2 : List (List ℚ))
      (e : Option SWError), fillVals M i j vals = (M2, e) →
      ∀ jx, j + vals.length ≤ jx → (M2[i]?.getD [])[jx]? = (M[i]?.getD [])[jx]? := by
  intro vals
  induction vals with
  | nil =>
    intro M i j M2 e h jx _
    injection h with h1 _
    rw [← h1]
  | cons v vs ih =>
    intro M i j M2 e h jx hjx
    simp only [fillVals] at h
    rcases hp : pythonFloat? v with _ | q <;> simp only [hp] at h
    · injection h with h1 _
      rw [← h1]
    · rcases hs : setEntry M i j q with _ | M3 <;> simp only [hs] at h
      · injection h with h1 _
        rw [← h1]
      · have hlen : j + 1 + vs.length ≤ jx := by
          simp only [List.length_cons] at hjx
          omega
        rw [ih M3 i (j + 1) M2 e h jx hlen]
        unfold setEntry at hs
        rcases hrow : M[i]? with _ | row <;> simp only [hrow] at hs
        · cases hs
        · by_cases hj : j < row.length
          · rw [if_pos hj] at hs
            injection hs with hs
            rw [← hs]
            have hilen : i < M.length := by
              by_contra hcon
              rw [List.getElem?_eq_none (Nat.le_of_not_lt hcon)] at hrow
              cases hrow
            rw [List.getElem?_set_self hilen]
            show (row.set j q)[jx]? = row[jx]?
            exact List.getElem?_set_ne (by omega)
          · rw [if_neg hj] at hs
            cases hs

/-- `fillVals` never changes the number of rows. -/
theorem fillVals_length :
    ∀ (vals : List String) (M : List (List ℚ)) (i j : Nat) (M2 : List (List ℚ))
      (e : Option SWError), fillVals M i j vals = (M2, e) → M2.length = M.length := by
  intro vals
  induction vals with
  | nil =>
    intro M i j M2 e h
    injection h with h1 _
    rw [← h1]
  | cons v vs ih =>
    intro M i j M2 e h
    simp only [fillVals] at h
    rcases hp : pythonFloat? v with _ | q <;> simp only [hp] at h
    · injection h with h1 _
      rw [← h1]
    · rcases hs : setEntry M i j q with _ | M3 <;> simp only [hs] at h
      · injection h with h1 _
        rw [← h1]
      · rw [ih M3 i (j + 1) M2 e h]
        unfold setEntry at hs
        rcases hrow : M[i]? with _ | row <;> simp only [hrow] at hs
        · cases hs
        · by_cases hj : j < row.length
          · rw [if_pos hj] at hs
            injection hs with hs
            rw [← hs, List.length_set]
          · rw [if_neg hj] at hs
            cases hs

/-- The row loop preserves the number of rows. -/
theorem fillRows_length (d : List (String × Nat)) :
    ∀ (rows : List String) (M M2 : List (List ℚ)) (e : Option SWError),
      fillRows d M rows = (M2, e) → M2.length = M.length := by
  intro rows
  induction rows with
  | nil =>
    intro M M2 e h
    injection h with h1 _
    rw [← h1]
  | cons line rest ih =>
    intro M M2 e h
    simp only [fillRows] at h
    rcases hfr : fillRow d M line with ⟨M3, e3⟩
    rw [hfr] at h
    have hM3 : M3.length = M.length := by
      unfold fillRow at hfr
      rcases hsp : pySplit line with _ | ⟨tok, vals⟩ <;> simp only [hsp] at hfr
      · injection hfr with h1 _
        rw [← h1]
      · rcases hlk : List.lookup tok d with _ | i <;> simp only [hlk] at hfr
        · injection hfr with h1 _
          rw [← h1]
        · exact fillVals_length vals M i 0 M3 e3 hfr
    rcases e3 with _ | e3
    · rw [ih M3 M2 e h, hM3]
    · injection h with h1 _
      rw [← h1, hM3]

/-- If no data line's row symbol maps to index `i`, the row loop leaves row
    `i` unchanged (also when it aborts halfway). -/
theorem fillRows_other_rows (d : List (String × Nat)) (i : Nat) :
    ∀ (rows : List String) (M M2 : List (List ℚ)) (e : Option SWError),
      fillRows d M rows = (M2, e) →
      (∀ line ∈ rows, ∀ tok vals, pySplit line = tok :: vals →
        List.lookup tok d ≠ some i) →
      M2[i]? = M[i]? := by
  intro rows
  induction rows with
  | nil =>
    intro M M2 e h _
    injection h with h1 _
    rw [← h1]
  | cons line rest ih =>
    intro M M2 e h hno
    simp only [fillRows] at h
    rcases hfr : fillRow d M line with ⟨M3, e3⟩
    rw [hfr] at h
    have hM3 : M3[i]? = M[i]? := by
      unfold fillRow at hfr
      rcases hsp : pySplit line with _ | ⟨tok, vals⟩ <;> simp only [hsp] at hfr
      · injection hfr with h1 _
        rw [← h1]
      · rcases hlk : List.lookup tok d with _ | i2 <;> simp only [hlk] at hfr
        · injection hfr with h1 _
          rw [← h1]
        · have hne : i2 ≠ i := by
            intro hcon
            exact hno line (List.mem_cons_self line rest) tok vals hsp (by rw [hlk, hcon])
          exact fillVals_other_rows vals M i2 0 M3 e3 hfr i (Ne.symm hne)
    rcases e3 with _ | e3
    · rw [ih M3 M2 e h (fun l hl => hno l (List.mem_cons_of_mem line hl)), hM3]
    · injection h with h1 _
      rw [← h1, hM3]

/-- If every data line whose symbol maps to row `i` carries at most `k`
    values, the row loop leaves the columns of row `i` at positions `≥ k`
    unchanged. -/
theorem fillRows_high_cols (d : List (String × Nat)) (i k : Nat) :
    ∀ (rows : List String) (M M2 : List (List ℚ)) (e : Option SWError),
      fillRows d M rows = (M2, e) →
      (∀ line ∈ rows, ∀ tok vals, pySplit line = tok :: vals →
        List.lookup tok d = some i → vals.length ≤ k) →
      ∀ jx, k ≤ jx → (M2[i]?.getD [])[jx]? = (M[i]?.getD [])[jx]? := by
  intro rows
  induction rows with
  | nil =>
    intro M M2 e h _ jx _
    injection h with h1 _
    rw [← h1]
  | cons line rest ih =>
    intro M M2 e h hshort jx hjx
    simp only [fillRows] at h
    rcases hfr : fillRow d M line with ⟨M3, e3⟩
    rw [hfr] at h
    have hM3 : (M3[i]?.getD [])[jx]? = (M[i]?.getD [])[jx]? := by
      unfold fillRow at hfr
      rcases hsp : pySplit line with _ | ⟨tok, vals⟩ <;> simp only [hsp] at hfr
      · injection hfr with h1 _
        rw [← h1]
      · rcases hlk : List.lookup tok d with _ | i2 <;> simp only [hlk] at hfr
        · injection hfr with h1 _
          rw [← h1]
        · by_cases hi2 : i2 = i
          · subst hi2
            have hv : vals.length ≤ k :=
              hshort line (List.mem_cons_self line rest) tok vals hsp hlk
            exact fillVals_high_cols vals M i2 0 M3 e3 hfr jx (by omega)
          · rw [fillVals_other_rows vals M i2 0 M3 e3 hfr i (Ne.symm hi2)]
    rcases e3 with _ | e3
    · rw [ih M3 M2 e h (fun l hl => hshort l (List.mem_cons_of_mem line hl)) jx hjx, hM3]
    · injection h with h1 _
      rw [← h1, hM3]

/-- On an `n × n` matrix, writing at row `i < n` a run of parseable values
    that fits in the row succeeds and keeps the matrix `n × n`. -/
theorem fillVals_ok (n : Nat) :
    ∀ (vals : List String) (M : List (List ℚ)) (i j : Nat),
      M.length = n → (∀ i2, i2 < n → (M[i2]?.getD []).length = n) → i < n →
      j + vals.length ≤ n → (∀ v ∈ vals, (pythonFloat? v).isSome) →
      ∃ M2, fillVals M i j vals = (M2, none) ∧ M2.length = n ∧
        (∀ i2, i2 < n → (M2[i2]?.getD []).length = n) := by
  intro vals
  induction vals with
  | nil =>
    intro M i j hlen hrows _ _ _
    exact ⟨M, rfl, hlen, hrows⟩
  | cons v vs ih =>
    intro M i j hlen hrows hi hfit hnum
    have hv : (pythonFloat? v).isSome := hnum v (List.mem_cons_self v vs)
    rcases hp : pythonFloat? v with _ | q
    · rw [hp] at hv
      cases hv
    · have hiM : i < M.length := by rw [hlen]; exact hi
      rcases hrow : M[i]? with _ | row
      · rw [List.getElem?_eq_getElem hiM] at hrow
        cases hrow
      · have hrowlen : row.length = n := by
          have := hrows i hi
          rw [hrow] at this
          exact this
        have hjlt : j < row.length := by
          rw [hrowlen]
          simp only [List.length_cons] at hfit
          omega
        have hse : setEntry M i j q = some (M.set i (row.set j q)) := by
          unfold setEntry
          simp only [hrow]
          rw [if_pos hjlt]
        have hM3len : (M.set i (row.set j q)).length = n := by
          rw [List.length_set, hlen]
        have hM3rows : ∀ i2, i2 < n → ((M.set i (row.set j q))[i2]?.getD []).length = n := by
          intro i2 hi2
          by_cases he : i = i2
          · subst he
            rw [List.getElem?_set_self hiM]
            show (row.set j q).length = n
            rw [List.length_set, hrowlen]
          · rw [List.getElem?_set_ne he]
            exact hrows i2 hi2
        have hfit2 : j + 1 + vs.length ≤ n := by
          simp only [List.length_cons] at hfit
          omega
        have hnum2 : ∀ w ∈ vs, (pythonFloat? w).isSome :=
          fun w hw => hnum w (List.mem_cons_of_mem v hw)
        rcases ih (M.set i (row.set j q)) i (j + 1) hM3len hM3rows hi hfit2 hnum2
          with ⟨M2, hfin, hl2, hr2⟩
        refine ⟨M2, ?_, hl2, hr2⟩
        simp only [fillVals, hp, hse]
        exact hfin

/-- A row loop whose every line has a known symbol, parseable values and a
    fitting width succeeds and keeps the matrix `n × n`. -/
theorem fillRows_ok (n : Nat) (d : List (String × Nat)) :
    ∀ (rows : List String) (M : List (List ℚ)),
      M.length = n → (∀ i2, i2 < n → (M[i2]?.getD []).length = n) →
      (∀ line ∈ rows, ∃ tok vals i, pySplit line = tok :: vals ∧
        List.lookup tok d = some i ∧ i < n ∧ vals.length ≤ n ∧
        ∀ v ∈ vals, (pythonFloat? v).isSome) →
      ∃ M2, fillRows d M rows = (M2, none) := by
  intro rows
  induction rows with
  | nil =>
    intro M _ _ _
    exact ⟨M, rfl⟩
  | cons line rest ih =>
    intro M hlen hrows hgood
    rcases hgood line (List.mem_cons_self line rest) with ⟨tok, vals, i, hsp, hlk, hi, hw, hnum⟩
    rcases fillVals_ok n vals M i 0 hlen hrows hi (by omega) hnum with ⟨M3, hfv, hl3, hr3⟩
    rcases ih M3 hl3 hr3 (fun l hl => hgood l (List.mem_cons_of_mem line hl))
      with ⟨M2, hfin⟩
    refine ⟨M2, ?_⟩
    simp only [fillRows, fillRow, hsp, hlk, hfv]
    exact hfin

/-- The matrix branch of the pairwise scorer, fully resolved. -/
theorem scorePair_matrix_entry (sch : ScoringScheme) (c1 c2 : Char) (M : List (List ℚ))
    (d : List (String × Nat)) (r c : Nat) (row : List ℚ) (v : ℚ)
    (h1 : c1 ≠ '-') (h2 : c2 ≠ '-') (hm : sch.scoring_matrix = some M)
    (hd : sch.index_by_symbol = some d) (hr : List.lookup (String.mk [c1]) d = some r)
    (hc : List.lookup (String.mk [c2]) d = some c) (hrow : M[r]? = some row)
    (hv : row[c]? = some v) : scorePair sch c1 c2 = .ok v := by
  rw [scorePair_eq, if_neg (fun hcc => h1 hcc.1), if_neg h1, if_neg h2]
  simp only [hm, hd, hr, hc, hrow, hv]

/-- Claim C9: a matrix file whose data lines omit some header symbol's row,
    or whose rows carry fewer values than there are header symbols, loads
    without error, and the unwritten entries keep the `np.zeros` default, so
    later lookups of those symbol pairs score `0.0` instead of failing.
    First conjunct: such a file loads successfully.  Second: a header symbol
    with no data row scores 0 against every indexed symbol.  Third: a symbol
    whose rows all carry at most `k` values scores 0 against any symbol with
    column index ≥ `k`. -/
theorem C9_theorem :
    (∀ (sch : ScoringScheme) (lines : List String) (headline : String) (rest : List String),
      skipComments lines = .ok (headline, rest) →
      (∀ line ∈ rest, ∃ tok vals i, pySplit line = tok :: vals ∧
        List.lookup tok (buildIndex (pySplit headline)) = some i ∧
        i < (buildIndex (pySplit headline)).length ∧
        vals.length ≤ (buildIndex (pySplit headline)).length ∧
        ∀ v ∈ vals, (pythonFloat? v).isSome) →
      (ScoringScheme.load_matrix sch lines).2 = none)
    ∧ (∀ (sch sch2 : ScoringScheme) (lines : List String) (headline : String)
        (rest : List String) (d : List (String × Nat)) (i : Nat) (c1 c2 : Char) (jx : Nat),
        skipComments lines = .ok (headline, rest) →
        ScoringScheme.load_matrix sch lines = (sch2, none) →
        sch2.index_by_symbol = some d →
        List.lookup (String.mk [c1]) d = some i → i < d.length →
        (∀ line ∈ rest, ∀ tok vals, pySplit line = tok :: vals →
          List.lookup tok d ≠ some i) →
        c1 ≠ '-' → c2 ≠ '-' →
        List.lookup (String.mk [c2]) d = some jx → jx < d.length →
        scorePair sch2 c1 c2 = .ok 0)
    ∧ (∀ (sch sch2 : ScoringScheme) (lines : List String) (headline : String)
        (rest : List String) (d : List (String × Nat)) (i k : Nat) (c1 c2 : Char) (jx : Nat),
        skipComments lines = .ok (headline, rest) →
        ScoringScheme.load_matrix sch lines = (sch2, none) →
        sch2.index_by_symbol = some d →
        List.lookup (String.mk [c1]) d = some i → i < d.length →
        (∀ line ∈ rest, ∀ tok vals, pySplit line = tok :: vals →
          List.lookup tok d = some i → vals.length ≤ k) →
        c1 ≠ '-' → c2 ≠ '-' →
        List.lookup (String.mk [c2]) d = some jx → k ≤ jx → jx < d.length →
        scorePair sch2 c1 c2 = .ok 0) := by
  have hM0len : ∀ n : Nat, (List.replicate n (List.replicate n (0 : ℚ))).length = n :=
    fun n => List.length_replicate n _
  have hM0rows : ∀ n : Nat, ∀ i2, i2 < n →
      (((List.replicate n (List.replicate n (0 : ℚ)))[i2]?).getD []).length = n := by
    intro n i2 hi2
    rw [List.getElem?_replicate_of_lt hi2]
    exact List.length_replicate n _
  refine ⟨?_, ?_, ?_⟩
  · intro sch lines headline rest h hgood
    simp only [ScoringScheme.load_matrix, h]
    rcases fillRows_ok (buildIndex (pySplit headline)).length (buildIndex (pySplit headline))
      rest (List.replicate (buildIndex (pySplit headline)).length
        (List.replicate (buildIndex (pySplit headline)).length 0))
      (hM0len _) (hM0rows _) hgood with ⟨M2, hfin⟩
    simp only [hfin]
  · intro sch sch2 lines headline rest d i c1 c2 jx h hload hidx hlk1 hilt hno hc1 hc2
      hlk2 hjlt
    simp only [ScoringScheme.load_matrix, h] at hload
    rcases hfr : fillRows (buildIndex (pySplit headline))
        (List.replicate (buildIndex (pySplit headline)).length
          (List.replicate (buildIndex (pySplit headline)).length 0)) rest with ⟨M, e⟩
    rw [hfr] at hload
    injection hload with hs2 he
    subst he
    rw [← hs2] at hidx
    have hd0 : buildIndex (pySplit headline) = d := by
      injection hidx with hidx
    subst hd0
    have hrowM : M[i]? = some (List.replicate (buildIndex (pySplit headline)).length 0) := by
      rw [fillRows_other_rows (buildIndex (pySplit headline)) i rest _ M none hfr hno]
    
      exact List.getElem?_replicate_of_lt hilt
    refine scorePair_matrix_entry sch2 c1 c2 M (buildIndex (pySplit headline)) i jx
      (List.replicate (buildIndex (pySplit headline)).length 0) 0 hc1 hc2 ?_ ?_ hlk1 hlk2
      hrowM (List.getElem?_replicate_of_lt hjlt)
    · rw [← hs2]
    · rw [← hs2]
  · intro sch sch2 lines headline rest d i k c1 c2 jx h hload hidx hlk1 hilt hshort hc1 hc2
      hlk2 hkjx hjlt
    simp only [ScoringScheme.load_matrix, h] at hload
    rcases hfr : fillRows (buildIndex (pySplit headline))
        (List.replicate (buildIndex (pySplit headline)).length
          (List.replicate (buildIndex (pySplit headline)).length 0)) rest with ⟨M, e⟩
    rw [hfr] at hload
    injection hload with hs2 he
    subst he
    rw [← hs2] at hidx
    have hd0 : buildIndex (pySplit headline) = d := by
      injection hidx with hidx
    subst hd0
    have hMlen : M.length = (buildIndex (pySplit headline)).length := by
      rw [fillRows_length _ rest _ M none hfr, hM0len]
    have hiM : i < M.length := by rw [hMlen]; exact hilt
    have hentry : ((M[i]?).getD [])[jx]? = some 0 := by
      rw [fillRows_high_cols (buildIndex (pySplit headline)) i k rest _ M none hfr hshort
        jx hkjx]
      rw [List.getElem?_replicate_of_lt hilt]
      show (List.replicate (buildIndex (pySplit headline)).length (0 : ℚ))[jx]? = some 0
      exact List.getElem?_replicate_of_lt hjlt
    have hrowM : M[i]? = some (M.get ⟨i, hiM⟩) := by
      rw [List.getElem?_eq_getElem hiM, List.get_eq_getElem]
    have hv : (M.get ⟨i, hiM⟩)[jx]? = some 0 := by
      rw [hrowM] at hentry
      exact hentry
    refine scorePair_matrix_entry sch2 c1 c2 M (buildIndex (pySplit headline)) i jx
      (M.get ⟨i, hiM⟩) 0 hc1 hc2 ?_ ?_ hlk1 hlk2 hrowM hv
    · rw [← hs2]
    · rw [← hs2]

/-- Witness for C9: the file `"A B" / "A 7"` has no row for `B` and a short
    row for `A`; it loads without error, `B` scores 0 against `A`
    (missing row) and `A` scores 0 against `B` (missing column). -/
theorem C9_witness :
    (ScoringScheme.load_matrix defaultScheme ["A B", "A 7"]).2 = none
    ∧ scorePair (ScoringScheme.load_matrix defaultScheme ["A B", "A 7"]).1 'B' 'A' = .ok 0
    ∧ scorePair (ScoringScheme.load_matrix defaultScheme ["A B", "A 7"]).1 'A' 'B'
        = .ok 0 := by
  have hsc : skipComments ["A B", "A 7"] = .ok ("A B", ["A 7"]) := by
    norm_num +decide [skipComments]
  have hbi : buildIndex (pySplit "A B") = [("A", 0), ("B", 1)] := by
    norm_num +decide [pySplit, splitWsAux, buildIndex, dictInsert, List.enum, List.enumFrom]
  have hp7 : pySplit "A 7" = ["A", "7"] := by
    norm_num +decide [pySplit, splitWsAux]
  have hgood : ∀ line ∈ (["A 7"] : List String), ∃ tok vals i,
      pySplit line = tok :: vals ∧
      List.lookup tok (buildIndex (pySplit "A B")) = some i ∧
      i < (buildIndex (pySplit "A B")).length ∧
      vals.length ≤ (buildIndex (pySplit "A B")).length ∧
      ∀ v ∈ vals, (pythonFloat? v).isSome := by
    intro line hl
    rw [List.mem_singleton] at hl
    subst hl
    refine ⟨"A", ["7"], 0, hp7, ?_, ?_, ?_, ?_⟩
    · rw [hbi]
      decide
    · rw [hbi]
      decide
    · rw [hbi]
      decide
    · intro v hv
      rw [List.mem_singleton] at hv
      subst hv
      decide
  have h0 : (ScoringScheme.load_matrix defaultScheme ["A B", "A 7"]).2 = none :=
    C9_theorem.1 defaultScheme ["A B", "A 7"] "A B" ["A 7"] hsc hgood
  have hload : ScoringScheme.load_matrix defaultScheme ["A B", "A 7"] =
      ((ScoringScheme.load_matrix defaultScheme ["A B", "A 7"]).1, none) := by
    rw [← h0]
  have hidx : (ScoringScheme.load_matrix defaultScheme ["A B", "A 7"]).1.index_by_symbol
      = some [("A", 0), ("B", 1)] := by
    norm_num +decide [ScoringScheme.load_matrix, skipComments, pySplit, splitWsAux,
      buildIndex, dictInsert, fillRows, fillRow, fillVals, setEntry, pythonFloat?,
      digitsToNat, List.lookup, List.enum, List.enumFrom, List.foldl_cons, List.foldl_nil]
  refine ⟨h0, ?_, ?_⟩
  · refine C9_theorem.2.1 defaultScheme _ ["A B", "A 7"] "A B" ["A 7"] [("A", 0), ("B", 1)]
      1 'B' 'A' 0 hsc hload hidx (by decide) (by decide) ?_ (by decide) (by decide)
      (by decide) (by decide)
    intro line hl tok vals heq
    rw [List.mem_singleton] at hl
    subst hl
    rw [hp7] at heq
    injection heq with h1 h2
    subst h1
    decide
  · refine C9_theorem.2.2 defaultScheme _ ["A B", "A 7"] "A B" ["A 7"] [("A", 0), ("B", 1)]
      0 1 'A' 'B' 1 hsc hload hidx (by decide) (by decide) ?_ (by decide) (by decide)
      (by decide) (by decide) (by decide)
    intro line hl tok vals heq _
    rw [List.mem_singleton] at hl
    subst hl
    rw [hp7] at heq
    injection heq with h1 h2
    subst h2
    decide
